import Mathlib

/-!
# CodeChecker remote-analysis offload protocol: a verification development

This file embeds the protocol artifacts of the CodeChecker daemon-mode
repository snapshot in Lean 4 and proves the specification's claims about
them.

The snapshot contains the Thrift interface declarations
(`thrift_api/daemon_server.thrift`, `web/api/codechecker_api_shared.thrift`),
the multi-pass driver script (`CodeChecker-Hijacker.sh`), the daemon
documentation (`docs/daemon.md`), and the result-viewer components
(`web/server/vue-cli/src/components/AnalysisInfoDialog.vue`).  The daemon
server's implementation (session manager, run scheduler, content store) is
not part of the snapshot — only its Thrift declaration and its documentation
are — so those components are modelled from the specification, as marked in
the individual doc comments.
-/

namespace CodeCheckerDaemon

/-! ## Wire error taxonomy (`web/api/codechecker_api_shared.thrift`) -/

/-- The `ErrorCode` enum of `codechecker_api_shared.thrift` (lines 16-46).
The historic constants `SOURCE_FILE` and `REPORT_FORMAT` are commented out
in the source ("REMOVED IN API v6.59") and are therefore absent here. -/
inductive ErrorCode
  | GENERAL
  | DATABASE
  | IOERROR
  | AUTH_DENIED
  | UNAUTHORIZED
  | API_MISMATCH
  deriving DecidableEq, Repr, Fintype

/-- The wire value of each `ErrorCode` constant, as declared in the source. -/
def ErrorCode.value : ErrorCode → Nat
  | .GENERAL => 2
  | .DATABASE => 0
  | .IOERROR => 1
  | .AUTH_DENIED => 3
  | .UNAUTHORIZED => 4
  | .API_MISMATCH => 5

/-- The `RequestFailed` exception of `codechecker_api_shared.thrift`
(lines 48-52): an error code, a human-readable message and optional
extra-info strings. -/
structure RequestFailed where
  errorCode : ErrorCode
  message : String
  extraInfo : List String

/-- All six active `ErrorCode` constants, in source order. -/
def allErrorCodes : List ErrorCode :=
  [.GENERAL, .DATABASE, .IOERROR, .AUTH_DENIED, .UNAUTHORIZED, .API_MISMATCH]

/-- One method declaration of a Thrift service: its name and whether its
declaration carries a `throws (1: shared.RequestFailed requestError)`
clause. -/
structure ThriftMethod where
  name : String
  throwsRequestFailed : Bool
  deriving DecidableEq, Repr

/-- The method declarations of the final revision of `service RemoteChecking`
in `thrift_api/daemon_server.thrift` (lines 126-167), in source order.
`pollCheckAvailability` (line 130) and `getCheckerList` (line 164) are the
only methods declared without a `throws` clause. -/
def remoteCheckingService : List ThriftMethod :=
  [ ⟨"pollCheckAvailability", false⟩,
    ⟨"initConnection", true⟩,
    ⟨"sendFileData", true⟩,
    ⟨"beginChecking", true⟩,
    ⟨"fetchPlists", true⟩,
    ⟨"expire", true⟩,
    ⟨"getCheckerList", false⟩ ]

end CodeCheckerDaemon

namespace CodeCheckerDaemon

/-! ## The multi-pass driver script (`CodeChecker-Hijacker.sh`) -/

/-- The three clang-tidy multipass phases the script drives
(`--multipass-phase=collect/compact/diagnose`). -/
inductive TidyPhase
  | collect
  | compact
  | diagnose
  deriving DecidableEq, Repr

/-- An observable event of one run of the hijacker script: the terminal
report of one per-file analyzer job of a `CodeChecker analyze` invocation,
or the single whole-directory clang-tidy `compact` invocation. -/
inductive HijackerEvent
  | jobTerminal (phase : TidyPhase) (file : Nat)
  | compactRun
  deriving DecidableEq, Repr

/-- Modelled from the spec: one `CodeChecker analyze` invocation runs one
analyzer job per input file and, being a synchronous command, returns only
after every job has reported terminal status (the analyzer-invocation
internals are not part of the snapshot; docs/daemon.md documents the `-j`
job bound). -/
def ccAnalyzeTrace (phase : TidyPhase) (numFiles : Nat) : List HijackerEvent :=
  (List.range numFiles).map (HijackerEvent.jobTerminal phase)

/-- The event trace of one run of `CodeChecker-Hijacker.sh` on a project of
`numFiles` files: the script is a straight-line shell program which runs the
collect-phase `CodeChecker analyze` (line 93), then the clang-tidy `compact`
invocation (line 103), then the diagnose-phase `CodeChecker analyze`
(line 119); each command blocks until it completes. -/
def hijackerTrace (numFiles : Nat) : List HijackerEvent :=
  ccAnalyzeTrace .collect numFiles ++ [HijackerEvent.compactRun] ++
    ccAnalyzeTrace .diagnose numFiles

/-! ## The daemon core: session manager, run scheduler, content store

The daemon server's implementation is not part of the repository snapshot:
only its Thrift declaration (`thrift_api/daemon_server.thrift`, service
`RemoteChecking`, lines 126-167) and its documentation (`docs/daemon.md`)
are.  The state machine below is therefore modelled from the specification
(sections 3, 4.2, 4.3 and 7 of the spec). -/

/-- Modelled from the spec: the protocol states of a Session
(`Initiating → AwaitingFiles → Checking → Completed`, with `Expired`
reachable from every state).  The daemon-server implementation holding this
state machine is missing from the snapshot. -/
inductive SessionState
  | initiating
  | awaitingFiles
  | checking
  | completed
  | expired
  deriving DecidableEq, Repr

/-- A session is live (non-terminal) unless it is completed or expired. -/
def SessionState.isLive : SessionState → Bool
  | .completed => false
  | .expired => false
  | _ => true

/-- The `FileData` struct of `thrift_api/daemon_server.thrift` (lines
107-111): a path, the digest of the file's contents, and optionally the file
verbatim. -/
structure FileRecord where
  path : String
  contentHash : String
  content : Option String
  deriving DecidableEq, Repr

/-- Modelled from the spec: a Session record of the Session/Token Manager
(`{token, runName, state, pendingFileHashes}`); the invocation and checker
argument strings play no role in any claim and are omitted.  The
daemon-server implementation is missing from the snapshot. -/
structure Session where
  token : Nat
  runName : String
  sstate : SessionState
  pendingFileHashes : List String
  deriving DecidableEq, Repr

/-- Liveness of a session, read off its protocol state. -/
def Session.live (s : Session) : Bool := s.sstate.isLive

/-- Modelled from the spec: the failure taxonomy of section 7 restricted to
the outcomes the claims mention. -/
inductive DaemonError
  | Locked
  | CapacityExceeded
  | FilesMissing
  | NotFound
  | ProtocolOrder
  deriving DecidableEq, Repr

/-- Modelled from the spec: the daemon state composing the Session/Token
Manager, the Run Scheduler (bounds `maxRuns` = R and `maxJobs` = J, defaults
10 and 1 per `docs/daemon.md` lines 24-27) and the hash-indexed Content
Store.  The daemon-server implementation is missing from the snapshot. -/
structure Daemon where
  maxRuns : Nat
  maxJobs : Nat
  sessions : List Session
  store : List (String × String)
  jobs : List (String × Nat)
  nextToken : Nat
  deriving Repr

/-- The `has(hash)` query of the Content Store: some entry carries this hash. -/
def storeHas (store : List (String × String)) (h : String) : Bool :=
  store.any (fun e => e.1 == h)

/-- Resolve a token to its session, if any. -/
def Daemon.findSession (d : Daemon) (t : Nat) : Option Session :=
  d.sessions.find? (fun s => s.token == t)

/-- The number of live (run-name-locking) sessions. -/
def Daemon.liveCount (d : Daemon) : Nat :=
  d.sessions.countP Session.live

/-- A run name is locked when a live session holds it. -/
def Daemon.runLocked (d : Daemon) (r : String) : Bool :=
  d.sessions.any (fun s => s.live && s.runName == r)

/-- The number of analyzer jobs currently dispatched for one run. -/
def Daemon.jobsOf (d : Daemon) (r : String) : Nat :=
  ((d.jobs.find? (fun p => p.1 == r)).map Prod.snd).getD 0

/-- Rewrite the session holding a token (all sessions carrying the token;
tokens are unique in every reachable state). -/
def Daemon.setSession (d : Daemon) (t : Nat) (f : Session → Session) : Daemon :=
  { d with sessions := d.sessions.map (fun s => if s.token == t then f s else s) }

/-- Store the per-run job counter. -/
def Daemon.setJobs (d : Daemon) (r : String) (n : Nat) : Daemon :=
  { d with jobs := (r, n) :: d.jobs.filter (fun p => p.1 != r) }

/-- Modelled from the spec: `initConnection(runName, ...)` fails with
`Locked` if the run name is already held by a live session, with
`CapacityExceeded` if the Scheduler denies a new run slot; on success it
locks the run name, allocates a unique token and creates the session in
state `AwaitingFiles` (the declaration is `daemon_server.thrift` lines
133-138; the implementation is missing from the snapshot). -/
def initConnection (d : Daemon) (r : String) : Except DaemonError (Nat × Daemon) :=
  if d.runLocked r then .error .Locked
  else if d.maxRuns ≤ d.liveCount then .error .CapacityExceeded
  else .ok (d.nextToken,
    { d with
        sessions := ⟨d.nextToken, r, .awaitingFiles, []⟩ :: d.sessions,
        nextToken := d.nextToken + 1 })

/-- The records whose content hash the Content Store does not hold. -/
def neededRecords (store : List (String × String)) (files : List FileRecord) :
    List FileRecord :=
  files.filter (fun f => !(storeHas store f.contentHash))

/-- Modelled from the spec: `sendFileData(token, files)` is valid only in
state `AwaitingFiles`; it compares each record's `contentHash` against the
Content Store and returns the paths whose hash is unknown (the needed list)
without mutating state for matched files; inline `content` of needed
records is stored immediately; `pendingFileHashes` tracks the needed
records still lacking content (declaration: `daemon_server.thrift` lines
140-145; the implementation is missing from the snapshot). -/
def sendFileData (d : Daemon) (t : Nat) (files : List FileRecord) :
    Except DaemonError (List String × Daemon) :=
  match d.findSession t with
  | none => .error .NotFound
  | some s =>
    match s.sstate with
    | .awaitingFiles =>
        let needed := neededRecords d.store files
        let supplied := needed.filterMap
          (fun f => f.content.map (fun c => (f.contentHash, c)))
        let missing := (needed.filter (fun f => f.content.isNone)).map
          FileRecord.contentHash
        .ok (needed.map FileRecord.path,
          { d.setSession t (fun s0 => { s0 with pendingFileHashes := missing }) with
              store := supplied ++ d.store })
    | _ => .error .ProtocolOrder

/-- Modelled from the spec: `beginChecking(token)` is valid only in state
`AwaitingFiles`, fails with `FilesMissing` while `pendingFileHashes` is
non-empty, and otherwise transitions the session to `Checking`
(declaration: `daemon_server.thrift` lines 147-151; the implementation is
missing from the snapshot). -/
def beginChecking (d : Daemon) (t : Nat) : Except DaemonError Daemon :=
  match d.findSession t with
  | none => .error .NotFound
  | some s =>
    match s.sstate with
    | .awaitingFiles =>
        if s.pendingFileHashes.isEmpty then
          .ok (d.setSession t (fun s0 => { s0 with sstate := .checking }))
        else .error .FilesMissing
    | _ => .error .ProtocolOrder

/-- Modelled from the spec: the transition of a session to `Completed` when
its checking finishes, dropping the run-name lock. -/
def completeChecking (d : Daemon) (t : Nat) : Except DaemonError Daemon :=
  match d.findSession t with
  | none => .error .NotFound
  | some s =>
    match s.sstate with
    | .checking =>
        .ok (d.setSession t (fun s0 => { s0 with sstate := .completed }))
    | _ => .error .ProtocolOrder

/-- Modelled from the spec: `expire(token)` is valid from any non-terminal
state, releases the run-name lock, and is an error-free no-op on an
already-expired or unknown token; totality of this function is the
model of "never raises an error" (declaration: `daemon_server.thrift`
lines 158-161; the implementation is missing from the snapshot). -/
def expire (d : Daemon) (t : Nat) : Daemon :=
  { d with
      sessions := d.sessions.map (fun s =>
        if s.token == t && s.live then { s with sstate := .expired } else s) }

/-- Modelled from the spec: the Run Scheduler dispatches one more analyzer
job for a run only while fewer than `maxJobs` jobs of that run are
executing (`docs/daemon.md` lines 26-27: maximum parallel analyzer jobs
PER RUN). -/
def startJob (d : Daemon) (r : String) : Except DaemonError Daemon :=
  if d.jobsOf r < d.maxJobs then .ok (d.setJobs r (d.jobsOf r + 1))
  else .error .CapacityExceeded

/-- Modelled from the spec: one analyzer job of a run reports terminal
status, freeing its job slot. -/
def endJob (d : Daemon) (r : String) : Daemon :=
  d.setJobs r (d.jobsOf r - 1)

/-- One client-visible request against the daemon, for quantifying over
arbitrary arrival orders. -/
inductive DaemonOp
  | connect (runName : String)
  | send (t : Nat) (files : List FileRecord)
  | beginCheck (t : Nat)
  | complete (t : Nat)
  | expireTok (t : Nat)
  | startJ (r : String)
  | endJ (r : String)

/-- Apply one request to the daemon state; a rejected request leaves the
state unchanged (section 7: admission denied means the server performed no
rollback since nothing was allocated). -/
def stepOp (d : Daemon) : DaemonOp → Daemon
  | .connect r =>
      match initConnection d r with
      | .ok (_, d2) => d2
      | .error _ => d
  | .send t files =>
      match sendFileData d t files with
      | .ok (_, d2) => d2
      | .error _ => d
  | .beginCheck t =>
      match beginChecking d t with
      | .ok d2 => d2
      | .error _ => d
  | .complete t =>
      match completeChecking d t with
      | .ok d2 => d2
      | .error _ => d
  | .expireTok t => expire d t
  | .startJ r =>
      match startJob d r with
      | .ok d2 => d2
      | .error _ => d
  | .endJ r => endJob d r

/-- The daemon state at start-up: no sessions, empty store, no jobs. -/
def Daemon.initial (R J : Nat) : Daemon :=
  { maxRuns := R, maxJobs := J, sessions := [], store := [], jobs := [],
    nextToken := 0 }

/-- Run a whole arrival order of requests. -/
def runOps (d : Daemon) (ops : List DaemonOp) : Daemon :=
  ops.foldl stepOp d

/-- Tokens are pairwise distinct and below the allocation counter. -/
def TokensOK (d : Daemon) : Prop :=
  d.sessions.Pairwise (fun a b => a.token ≠ b.token) ∧
    ∀ s ∈ d.sessions, s.token < d.nextToken

/-- No two live sessions hold the same run name. -/
def RunNamesOK (d : Daemon) : Prop :=
  d.sessions.Pairwise
    (fun a b => a.live = true → b.live = true → a.runName ≠ b.runName)

/-- The scheduler bounds hold: at most `maxRuns` concurrently locked runs
and at most `maxJobs` concurrent jobs within each run. -/
def CapOK (d : Daemon) : Prop :=
  d.liveCount ≤ d.maxRuns ∧ ∀ r, d.jobsOf r ≤ d.maxJobs

/-- The daemon's global invariant. -/
def Inv (d : Daemon) : Prop := TokensOK d ∧ RunNamesOK d ∧ CapOK d

/-- The one-session daemon state of the spec's `"demo"` scenario (run limit
R = 1, one live session holding `"demo"` under token 0). -/
def demoDaemon : Daemon :=
  { maxRuns := 1, maxJobs := 1,
    sessions := [{ token := 0, runName := "demo", sstate := .awaitingFiles,
                   pendingFileHashes := [] }],
    store := [], jobs := [], nextToken := 1 }

/-- A two-record file list matching the spec's `sendFileData` scenario:
`a.c` with hash `h1` (content supplied inline) and `b.c` with hash `h2`. -/
def demoFiles : List FileRecord :=
  [ { path := "a.c", contentHash := "h1", content := some "int a;" },
    { path := "b.c", contentHash := "h2", content := some "int b;" } ]

/-! ## The analysis-info dialog
(`web/server/vue-cli/src/components/AnalysisInfoDialog.vue`)

JavaScript objects are modelled as association lists in insertion order;
`alookup`/`setK` mirror property read and property assignment. -/

/-- Read a property of a JavaScript object (first entry with the key). -/
def alookup (l : List (String × α)) (k : String) : Option α :=
  (l.find? (fun p => p.1 == k)).map Prod.snd

/-- Assign a property of a JavaScript object: overwrite in place when the
key exists, append otherwise (JS objects keep insertion order). -/
def setK (l : List (String × α)) (k : String) (v : α) : List (String × α) :=
  if (l.find? (fun p => p.1 == k)).isSome then
    l.map (fun p => if p.1 == k then (k, v) else p)
  else l ++ [(k, v)]

/-- The `GroupMeta.NoGroup` sentinel of `AnalysisInfoDialog.vue` (line 229). -/
def NoGroup : String := "__N"

/-- The `GroupMeta.AnalyzerTotal` sentinel of `AnalysisInfoDialog.vue` (line 229). -/
def AnalyzerTotal : String := "__S"

/-- The function `getTopLevelCheckGroup(analyzerName, checkerName)` of
`AnalysisInfoDialog.vue`: `clang-diagnostic-*` checkers are special-cased;
otherwise the group is the dot-prefix, else the hyphen-prefix (skipping the
analyzer's own name), else `NoGroup`. -/
def getTopLevelCheckGroup (analyzerName checkerName : String) : String :=
  let cd := checkerName.splitOn "clang-diagnostic-"
  if cd.length > 1 && (cd.getD 0 "" == "") then "clang-diagnostic"
  else
    let sd := checkerName.splitOn "."
    if sd.length > 1 then sd.getD 0 ""
    else
      let sh := checkerName.splitOn "-"
      if sh.length > 1 then
        if sh.getD 0 "" == analyzerName then
          if sh.length ≥ 3 then sh.getD 1 "" else NoGroup
        else sh.getD 0 ""
      else NoGroup

/-- One record of `analysisInfo.map(ai => ai.checkers)`: per analyzer, the
checkers with their `enabled` flag. -/
abbrev AnalysisRecord := List (String × List (String × Bool))

/-- The accumulator shape of `reduceCheckerStatuses`:
analyzer → group → checker → enabled flag. -/
abbrev CheckerStatuses := List (String × List (String × List (String × Bool)))

/-- The group map `accumulator[analyzer]` read by `reduceCheckerStatuses`
(an absent analyzer reads as the empty object). -/
def gmOf (acc : CheckerStatuses) (analyzer : String) :
    List (String × List (String × Bool)) :=
  (alookup acc analyzer).getD []

/-- The map `accumulator[analyzer]` after the group-creation step, which assigns a
fresh empty object to `accumulator[analyzer][group]` when it is missing. -/
def gm1Of (acc : CheckerStatuses) (analyzer group : String) :
    List (String × List (String × Bool)) :=
  if (alookup (gmOf acc analyzer) group).isSome then gmOf acc analyzer
  else setK (gmOf acc analyzer) group []

/-- The checker map `accumulator[analyzer][group]` after group creation. -/
def cmOf (acc : CheckerStatuses) (analyzer group : String) :
    List (String × Bool) :=
  (alookup (gm1Of acc analyzer group) group).getD []

/-- The body of the inner loop of `reduceCheckerStatuses`:
`accumulator[analyzer][group][checker] =
  accumulator[analyzer][group][checker] || checkerInfo.enabled`,
creating the group object when missing. -/
def applyChecker (acc : CheckerStatuses) (analyzer checker : String)
    (enabled : Bool) : CheckerStatuses :=
  let group := getTopLevelCheckGroup analyzer checker
  setK acc analyzer
    (setK (gm1Of acc analyzer group) group
      (setK (cmOf acc analyzer group) checker
        (((alookup (cmOf acc analyzer group) checker).getD false) || enabled)))

/-- The analyzer-creation step of `reduceCheckerStatuses`:
`if (!accumulator[analyzer]) { accumulator[analyzer] = {};
accumulator[analyzer][NoGroup] = {}; }`. -/
def ensureAnalyzer (acc : CheckerStatuses) (analyzer : String) :
    CheckerStatuses :=
  if (alookup acc analyzer).isSome then acc
  else setK acc analyzer [(NoGroup, [])]

/-- The fold body `reduceCheckerStatuses(accumulator, newInfo)` of
`AnalysisInfoDialog.vue` (lines 342-359). -/
def reduceCheckerStatuses (acc : CheckerStatuses) (newInfo : AnalysisRecord) :
    CheckerStatuses :=
  newInfo.foldl
    (fun a p =>
      p.2.foldl (fun a2 q => applyChecker a2 p.1 q.1 q.2)
        (ensureAnalyzer a p.1))
    acc

/-- The enabled flag the dialog reads for one analyzer, group and checker. -/
def flagOf (acc : CheckerStatuses) (analyzer group checker : String) :
    Option Bool :=
  (alookup acc analyzer).bind (fun gm =>
    (alookup gm group).bind (fun cm => alookup cm checker))

/-- The `enabled` flags one record contributes for one analyzer and checker
(JS objects cannot repeat a key; the list model concatenates duplicates). -/
def entryFlags (r : AnalysisRecord) (a c : String) : List Bool :=
  (r.filter (fun p => p.1 == a)).flatMap
    (fun p => (p.2.filter (fun q => q.1 == c)).map Prod.snd)

/-- All the `enabled` flags a whole record list contributes for one
analyzer and checker, in processing order. -/
def allFlags (records : List AnalysisRecord) (a c : String) : List Bool :=
  records.flatMap (fun r => entryFlags r a c)

/-- Fold new enabled flags onto an optional accumulated flag, as the
`old || enabled` assignment does. -/
def orFold (x : Option Bool) (fs : List Bool) : Option Bool :=
  fs.foldl (fun v e => some (v.getD false || e)) x

/-- A triple of checker counts, `[Enabled, Disabled, Total]`
(`CountMeta` of `AnalysisInfoDialog.vue`, line 230). -/
structure Counts3 where
  enabled : Int
  disabled : Int
  total : Int
  deriving DecidableEq, Repr

/-- Component-wise addition of count triples (the body of the
`Object.values(counts[analyzer]).reduce` lambda, lines 407-411). -/
def addCounts (x y : Counts3) : Counts3 :=
  ⟨x.enabled + y.enabled, x.disabled + y.disabled, x.total + y.total⟩

/-- The first counts pass (lines 383-393): enabled = sum of 0/1 indicators
with initial value 0, disabled = -1 (updated later), total = number of
checkers. -/
def countsPass1 (cm : List (String × Bool)) : Counts3 :=
  ⟨(cm.map (fun p => if p.2 then (1 : Int) else 0)).foldl (· + ·) 0,
   -1, (cm.length : Int)⟩

/-- The second counts pass (lines 397-403):
`counts[analyzer][group][Disabled] = Total - Enabled`. -/
def countsFix (x : Counts3) : Counts3 :=
  ⟨x.enabled, x.total - x.enabled, x.total⟩

/-- The per-group counts of one analyzer after both passes. -/
def analyzerCountsBase (gm : List (String × List (String × Bool))) :
    List (String × Counts3) :=
  gm.map (fun p => (p.1, countsFix (countsPass1 p.2)))

/-- JavaScript `Array.prototype.reduce` without an initial value: seeded
with the head; a JS `TypeError` on the empty array is modelled as `none`. -/
def reduceHeadSeed (l : List Counts3) : Option Counts3 :=
  match l with
  | [] => none
  | x :: xs => some (xs.foldl addCounts x)

/-- The component-wise sum of a list of count triples. -/
def sumCounts (l : List Counts3) : Counts3 :=
  ⟨(l.map Counts3.enabled).sum, (l.map Counts3.disabled).sum,
   (l.map Counts3.total).sum⟩

/-- The counts portion of `sortAndStoreCheckerInfo` (lines 377-413) for one
analyzer: per-group triples, then the `AnalyzerTotal` ("`__S`") entry
assigned from the head-seeded reduce of the group triples.  On an analyzer
with no groups the JS `reduce` would throw; the model leaves the (empty)
map unchanged in that unreached case. -/
def analyzerCounts (gm : List (String × List (String × Bool))) :
    List (String × Counts3) :=
  let base := analyzerCountsBase gm
  match reduceHeadSeed (base.map Prod.snd) with
  | some s => setK base AnalyzerTotal s
  | none => base

/-- The counts table `sortAndStoreCheckerInfo` stores for every analyzer. -/
def sortAndStoreCounts (checkerStatuses : CheckerStatuses) :
    List (String × List (String × Counts3)) :=
  checkerStatuses.map (fun p => (p.1, analyzerCounts p.2))

/-- A one-record analysis-info response: the `clangsa` analyzer reporting
the `core.DivideZero` checker as enabled. -/
def demoRecords : List AnalysisRecord :=
  [[("clangsa", [("core.DivideZero", true)])]]

/-- A one-analyzer checker-status map with one group of two checkers. -/
def demoStatuses : CheckerStatuses :=
  [("clangsa", [("core", [("core.DivideZero", true), ("core.Swap", false)])])]

theorem ccAnalyzeTrace_length (phase : TidyPhase) (n : Nat) :
    (ccAnalyzeTrace phase n).length = n := by
  simp [ccAnalyzeTrace]

theorem ccAnalyzeTrace_getElem (phase : TidyPhase) (n i : Nat) :
    (ccAnalyzeTrace phase n)[i]? =
      if i < n then some (.jobTerminal phase i) else none := by
  unfold ccAnalyzeTrace
  by_cases h : i < n
  · simp [List.getElem?_range h, h]
  · rw [List.getElem?_eq_none]
    · simp [h]
    · simpa using Nat.le_of_not_lt h

theorem hijackerTrace_getElem (n i : Nat) :
    (hijackerTrace n)[i]? =
      if i < n then some (.jobTerminal .collect i)
      else if i = n then some .compactRun
      else if i < 2 * n + 1 then some (.jobTerminal .diagnose (i - (n + 1)))
      else none := by
  unfold hijackerTrace
  rw [List.append_assoc]
  by_cases h1 : i < n
  · rw [List.getElem?_append_left (by simpa [ccAnalyzeTrace_length] using h1)]
    simp [ccAnalyzeTrace_getElem, h1]
  · rw [List.getElem?_append_right (by simpa [ccAnalyzeTrace_length] using Nat.le_of_not_lt h1)]
    rw [ccAnalyzeTrace_length]
    by_cases h2 : i = n
    · subst h2
      simp [h1]
    · have hgt : n < i := Nat.lt_of_le_of_ne (Nat.le_of_not_lt h1) (Ne.symm h2)
      have hpos : 1 ≤ i - n := by omega
      rw [List.getElem?_append_right (by simpa using hpos)]
      simp only [List.length_cons, List.length_nil]
      by_cases h3 : i < 2 * n + 1
      · have hlt : i - n - 1 < n := by omega
        rw [ccAnalyzeTrace_getElem]
        simp only [hlt, if_true, h1, if_false, h2, if_false, h3, if_true]
        congr 2
      · have hge : ¬ (i - n - 1 < n) := by omega
        rw [ccAnalyzeTrace_getElem]
        simp [hge, h1, h2, h3]

theorem hijackerTrace_collect_lt (n i a : Nat)
    (h : (hijackerTrace n)[i]? = some (.jobTerminal .collect a)) : i < n := by
  rw [hijackerTrace_getElem] at h
  by_cases h1 : i < n
  · exact h1
  · by_cases h2 : i = n
    · simp [h1, h2] at h
    · by_cases h3 : i < 2 * n + 1 <;> simp [h1, h2, h3] at h

theorem hijackerTrace_compact_eq (n j : Nat)
    (h : (hijackerTrace n)[j]? = some .compactRun) : j = n := by
  rw [hijackerTrace_getElem] at h
  by_cases h1 : j < n
  · simp [h1] at h
  · by_cases h2 : j = n
    · exact h2
    · by_cases h3 : j < 2 * n + 1 <;> simp [h1, h2, h3] at h

theorem hijackerTrace_diagnose_gt (n k b : Nat)
    (h : (hijackerTrace n)[k]? = some (.jobTerminal .diagnose b)) : n < k := by
  rw [hijackerTrace_getElem] at h
  by_cases h1 : k < n
  · simp [h1] at h
  · by_cases h2 : k = n
    · simp [h1, h2] at h
    · omega

/-! ### List helpers for the daemon model -/

theorem find?_token_map (t : Nat) (f : Session → Session)
    (hf : ∀ s, (f s).token = s.token) (l : List Session) :
    (l.map f).find? (fun s => s.token == t) =
      (l.find? (fun s => s.token == t)).map f := by
  induction l with
  | nil => rfl
  | cons a l ih =>
    rw [List.map_cons, List.find?_cons, List.find?_cons]
    simp only [hf]
    cases h : (a.token == t)
    · simpa using ih
    · rfl

theorem countP_map_eq_of (p : Session → Bool) (f : Session → Session)
    (l : List Session) (h : ∀ a ∈ l, p (f a) = p a) :
    (l.map f).countP p = l.countP p := by
  induction l with
  | nil => rfl
  | cons a l ih =>
    rw [List.map_cons, List.countP_cons, List.countP_cons,
      h a (List.mem_cons_self a l), ih (fun b hb => h b (List.mem_cons_of_mem a hb))]

theorem countP_map_le_of (p : Session → Bool) (f : Session → Session)
    (l : List Session) (h : ∀ a ∈ l, p (f a) = true → p a = true) :
    (l.map f).countP p ≤ l.countP p := by
  induction l with
  | nil => exact Nat.le_refl 0
  | cons a l ih =>
    rw [List.map_cons, List.countP_cons, List.countP_cons]
    have hrec := ih (fun b hb h2 => h b (List.mem_cons_of_mem a hb) h2)
    have hxa : (if p (f a) = true then 1 else 0) ≤ (if p a = true then 1 else 0) := by
      by_cases hpa : p (f a) = true
      · simp [hpa, h a (List.mem_cons_self a l) hpa]
      · simp [hpa]
    exact Nat.add_le_add hrec hxa

theorem countP_live_map_succ (t : Nat) (f : Session → Session)
    (hother : ∀ a, a.token ≠ t → f a = a)
    (hkill : ∀ a, a.token = t → (f a).live = false)
    (l : List Session) (hpw : l.Pairwise (fun a b => a.token ≠ b.token))
    (s : Session) (hs : s ∈ l) (hst : s.token = t) (hlive : s.live = true) :
    (l.map f).countP Session.live + 1 = l.countP Session.live := by
  induction l with
  | nil => cases hs
  | cons a l ih =>
    have hpw1 : ∀ b ∈ l, a.token ≠ b.token := (List.pairwise_cons.mp hpw).1
    have hpw2 : l.Pairwise (fun a b => a.token ≠ b.token) :=
      (List.pairwise_cons.mp hpw).2
    rw [List.map_cons, List.countP_cons, List.countP_cons]
    rcases List.mem_cons.mp hs with rfl | hmem
    · have hmap : l.map f = l := by
        conv_rhs => rw [← List.map_id l]
        exact List.map_congr_left
          (fun b hb => hother b (fun hbt => hpw1 b hb (hst.trans hbt.symm)))
      rw [hmap, hkill s hst, hlive]
      simp
    · have hat : a.token ≠ t := fun h => hpw1 s hmem (h.trans (hst.symm ▸ rfl))
      rw [hother a hat]
      have := ih hpw2 hmem
      omega

theorem find?_filter_of_imp (p q : String × Nat → Bool)
    (h : ∀ a, p a = true → q a = true) (l : List (String × Nat)) :
    (l.filter q).find? p = l.find? p := by
  induction l with
  | nil => rfl
  | cons a l ih =>
    by_cases hpa : p a = true
    · rw [List.filter_cons_of_pos (h a hpa), List.find?_cons_of_pos _ hpa,
        List.find?_cons_of_pos _ hpa]
    · by_cases hqa : q a = true
      · rw [List.filter_cons_of_pos hqa, List.find?_cons_of_neg _ hpa,
          List.find?_cons_of_neg _ hpa, ih]
      · rw [List.filter_cons_of_neg (by simpa using hqa), List.find?_cons_of_neg _ hpa, ih]

/-! ### Invariant preservation -/

theorem Inv_of_map (d d2 : Daemon) (f : Session → Session)
    (hs : d2.sessions = d.sessions.map f)
    (hR : d2.maxRuns = d.maxRuns) (hJ : d2.maxJobs = d.maxJobs)
    (hjobs : d2.jobs = d.jobs) (hnt : d2.nextToken = d.nextToken)
    (htok : ∀ s, (f s).token = s.token)
    (hrun : ∀ s, (f s).runName = s.runName)
    (hlive : ∀ s ∈ d.sessions, (f s).live = true → s.live = true)
    (h : Inv d) : Inv d2 := by
  obtain ⟨⟨hpw, hlt⟩, hnames, hcapR, hcapJ⟩ := h
  refine ⟨⟨?_, ?_⟩, ?_, ?_, ?_⟩
  · rw [hs, List.pairwise_map]
    exact hpw.imp (fun hab => by rw [htok, htok]; exact hab)
  · intro s hsmem
    rw [hs] at hsmem
    obtain ⟨a, ha, rfl⟩ := List.mem_map.mp hsmem
    rw [htok, hnt]
    exact hlt a ha
  · rw [RunNamesOK, hs, List.pairwise_map]
    refine hnames.imp_of_mem (fun ha hb hab => ?_)
    intro hfa hfb
    rw [hrun, hrun]
    exact hab (hlive _ ha hfa) (hlive _ hb hfb)
  · rw [Daemon.liveCount, hs, hR]
    exact Nat.le_trans (countP_map_le_of _ _ _ hlive) hcapR
  · intro r
    have : d2.jobsOf r = d.jobsOf r := by rw [Daemon.jobsOf, Daemon.jobsOf, hjobs]
    rw [this, hJ]
    exact hcapJ r

theorem Inv_initConnection (d : Daemon) (r : String) (t : Nat) (d2 : Daemon)
    (h : Inv d) (hok : initConnection d r = .ok (t, d2)) : Inv d2 := by
  obtain ⟨⟨hpw, hlt⟩, hnames, hcapR, hcapJ⟩ := h
  unfold initConnection at hok
  by_cases h1 : d.runLocked r
  · simp [h1] at hok
  · by_cases h2 : d.maxRuns ≤ d.liveCount
    · simp [h1, h2] at hok
    · simp only [h1, if_false, h2, Except.ok.injEq, Prod.mk.injEq] at hok
      obtain ⟨rfl, rfl⟩ := hok
      have hfree : ∀ b ∈ d.sessions, b.live = true → b.runName ≠ r := by
        intro b hb hbl hbr
        have hfalse : d.runLocked r = false := Bool.not_eq_true _ ▸ eq_false_of_ne_true h1
        rw [Daemon.runLocked, List.any_eq_false] at hfalse
        have := hfalse b hb
        simp [hbl, hbr] at this
      refine ⟨⟨?_, ?_⟩, ?_, ?_, ?_⟩
      · refine List.pairwise_cons.mpr ⟨fun b hb => ?_, hpw⟩
        exact fun hcontra => Nat.lt_irrefl _ (hcontra ▸ hlt b hb)
      · intro s hsmem
        rcases List.mem_cons.mp hsmem with rfl | hsmem
        · exact Nat.lt_succ_self _
        · exact Nat.lt_trans (hlt s hsmem) (Nat.lt_succ_self _)
      · refine List.pairwise_cons.mpr ⟨fun b hb => ?_, hnames⟩
        intro _ hbl
        exact fun hcontra => hfree b hb hbl (hcontra ▸ rfl)
      · have hlc : List.countP Session.live d.sessions < d.maxRuns := by
          have := Nat.lt_of_not_le h2
          simpa [Daemon.liveCount] using this
        show Daemon.liveCount _ ≤ _
        simp only [Daemon.liveCount]
        rw [List.countP_cons]
        simp only [Session.live, SessionState.isLive, if_true]
        omega
      · exact hcapJ

theorem session_unique (d : Daemon) (htk : TokensOK d) (s : Session) (t : Nat)
    (hfind : d.findSession t = some s) :
    ∀ s0 ∈ d.sessions, s0.token = t → s0 = s := by
  intro s0 h0 hs0t
  have hsmem : s ∈ d.sessions := List.mem_of_find?_eq_some hfind
  have hstt : s.token = t := by simpa using List.find?_some hfind
  by_contra hne
  have hsym : Symmetric (fun a b : Session => a.token ≠ b.token) :=
    fun a b hab => Ne.symm hab
  exact htk.1.forall hsym h0 hsmem hne (hs0t.trans hstt.symm)

theorem Inv_sendFileData (d : Daemon) (t : Nat) (files : List FileRecord)
    (P : List String) (d2 : Daemon)
    (h : Inv d) (hok : sendFileData d t files = .ok (P, d2)) : Inv d2 := by
  unfold sendFileData at hok
  split at hok
  · cases hok
  · split at hok
    · simp only [Except.ok.injEq, Prod.mk.injEq] at hok
      obtain ⟨-, rfl⟩ := hok
      refine Inv_of_map d _ _ rfl rfl rfl rfl rfl ?_ ?_ ?_ h
      · intro s0
        by_cases ht : (s0.token == t) = true <;> simp [ht]
      · intro s0
        by_cases ht : (s0.token == t) = true <;> simp [ht]
      · intro s0 _ hl
        by_cases ht : (s0.token == t) = true <;> simp [ht] at hl ⊢ <;>
          simpa [Session.live] using hl
    · cases hok

theorem Inv_beginChecking (d : Daemon) (t : Nat) (d2 : Daemon)
    (h : Inv d) (hok : beginChecking d t = .ok d2) : Inv d2 := by
  unfold beginChecking at hok
  split at hok
  · cases hok
  · rename_i s hfind
    split at hok
    · rename_i hss
      by_cases hpend : s.pendingFileHashes.isEmpty
      · rw [if_pos hpend] at hok
        cases hok
        have honly := session_unique d h.1 s t hfind
        refine Inv_of_map d _ _ rfl rfl rfl rfl rfl ?_ ?_ ?_ h
        · intro s0
          by_cases ht : (s0.token == t) = true <;> simp [ht]
        · intro s0
          by_cases ht : (s0.token == t) = true <;> simp [ht]
        · intro s0 h0 hl
          by_cases ht : (s0.token == t) = true
          · rw [honly s0 h0 (by simpa using ht)]
            simp [Session.live, SessionState.isLive, hss]
          · simpa [ht] using hl
      · rw [if_neg hpend] at hok
        cases hok
    · cases hok

theorem Inv_completeChecking (d : Daemon) (t : Nat) (d2 : Daemon)
    (h : Inv d) (hok : completeChecking d t = .ok d2) : Inv d2 := by
  unfold completeChecking at hok
  split at hok
  · cases hok
  · split at hok
    · cases hok
      refine Inv_of_map d _ _ rfl rfl rfl rfl rfl ?_ ?_ ?_ h
      · intro s0
        by_cases ht : (s0.token == t) = true <;> simp [ht]
      · intro s0
        by_cases ht : (s0.token == t) = true <;> simp [ht]
      · intro s0 _ hl
        by_cases ht : (s0.token == t) = true
        · rw [ht] at hl
          simp [Session.live, SessionState.isLive] at hl
        · simpa [ht] using hl
    · cases hok

theorem Inv_expire (d : Daemon) (t : Nat) (h : Inv d) : Inv (expire d t) := by
  refine Inv_of_map d _ _ rfl rfl rfl rfl rfl ?_ ?_ ?_ h
  · intro s0
    by_cases hc : (s0.token == t && s0.live) = true <;> simp [hc]
  · intro s0
    by_cases hc : (s0.token == t && s0.live) = true <;> simp [hc]
  · intro s0 _ hl
    by_cases hc : (s0.token == t && s0.live) = true
    · rw [hc] at hl
      simp [Session.live, SessionState.isLive] at hl
    · simpa [hc] using hl

theorem jobsOf_setJobs_self (d : Daemon) (r : String) (n : Nat) :
    (d.setJobs r n).jobsOf r = n := by
  simp [Daemon.jobsOf, Daemon.setJobs]

theorem jobsOf_setJobs_other (d : Daemon) (r r2 : String) (n : Nat)
    (h : r2 ≠ r) : (d.setJobs r n).jobsOf r2 = d.jobsOf r2 := by
  rw [Daemon.jobsOf, Daemon.setJobs]
  show (((((r, n) :: d.jobs.filter fun p => p.1 != r).find?
    (fun p => p.1 == r2)).map Prod.snd).getD 0) = _
  rw [List.find?_cons_of_neg _ (by simpa using fun hc => h hc.symm)]
  rw [find?_filter_of_imp _ _ ?_]
  · rfl
  · intro a ha
    have : a.1 = r2 := by simpa using ha
    simp [this, h]

theorem Inv_setJobs (d : Daemon) (r : String) (n : Nat)
    (hn : n ≤ d.maxJobs) (h : Inv d) : Inv (d.setJobs r n) := by
  obtain ⟨htk, hnames, hcapR, hcapJ⟩ := h
  refine ⟨htk, hnames, hcapR, ?_⟩
  intro r2
  by_cases hr : r2 = r
  · subst hr
    rw [jobsOf_setJobs_self]
    exact hn
  · rw [jobsOf_setJobs_other _ _ _ _ hr]
    exact hcapJ r2

theorem Inv_stepOp (d : Daemon) (op : DaemonOp) (h : Inv d) :
    Inv (stepOp d op) := by
  cases op with
  | connect r =>
    show Inv (match initConnection d r with
      | .ok (_, d2) => d2
      | .error _ => d)
    cases hc : initConnection d r with
    | ok v => exact Inv_initConnection d r v.1 v.2 h (by rw [hc])
    | error _ => exact h
  | send t files =>
    show Inv (match sendFileData d t files with
      | .ok (_, d2) => d2
      | .error _ => d)
    cases hc : sendFileData d t files with
    | ok v => exact Inv_sendFileData d t files v.1 v.2 h (by rw [hc])
    | error _ => exact h
  | beginCheck t =>
    show Inv (match beginChecking d t with
      | .ok d2 => d2
      | .error _ => d)
    cases hc : beginChecking d t with
    | ok v => exact Inv_beginChecking d t v h hc
    | error _ => exact h
  | complete t =>
    show Inv (match completeChecking d t with
      | .ok d2 => d2
      | .error _ => d)
    cases hc : completeChecking d t with
    | ok v => exact Inv_completeChecking d t v h hc
    | error _ => exact h
  | expireTok t => exact Inv_expire d t h
  | startJ r =>
    show Inv (match startJob d r with
      | .ok d2 => d2
      | .error _ => d)
    cases hc : startJob d r with
    | ok v =>
      unfold startJob at hc
      by_cases hlt : d.jobsOf r < d.maxJobs
      · rw [if_pos hlt] at hc
        cases hc
        exact Inv_setJobs d r _ hlt h
      · rw [if_neg hlt] at hc
        cases hc
    | error _ => exact h
  | endJ r =>
    exact Inv_setJobs d r _ (Nat.le_trans (Nat.sub_le _ _) (h.2.2.2 r)) h

theorem Inv_initial (R J : Nat) : Inv (Daemon.initial R J) := by
  refine ⟨⟨List.Pairwise.nil, ?_⟩, List.Pairwise.nil, ?_, ?_⟩
  · intro s hs
    cases hs
  · exact Nat.zero_le _
  · intro r
    exact Nat.zero_le _

theorem Inv_runOps (d : Daemon) (ops : List DaemonOp) (h : Inv d) :
    Inv (runOps d ops) := by
  induction ops generalizing d with
  | nil => exact h
  | cons op ops ih => exact ih _ (Inv_stepOp d op h)

/-! ### Operation characterizations -/

theorem findSession_setSession (d : Daemon) (t : Nat) (f : Session → Session)
    (hf : ∀ s, (f s).token = s.token) (s : Session)
    (hfind : d.findSession t = some s) :
    (d.setSession t f).findSession t = some (f s) := by
  have hg : ∀ s0 : Session,
      (if s0.token == t then f s0 else s0).token = s0.token := by
    intro s0
    by_cases hc : (s0.token == t) = true <;> simp [hc, hf]
  show (d.sessions.map _).find? _ = _
  rw [find?_token_map t _ hg d.sessions]
  rw [Daemon.findSession] at hfind
  rw [hfind]
  have hst := List.find?_some hfind
  show some (if (s.token == t) = true then f s else s) = some (f s)
  rw [if_pos hst]

theorem findSession_expire (d : Daemon) (t : Nat) (s : Session)
    (hfind : d.findSession t = some s) :
    (expire d t).findSession t =
      some (if s.live = true then { s with sstate := .expired } else s) := by
  have hg : ∀ s0 : Session,
      (if s0.token == t && s0.live then
        { s0 with sstate := SessionState.expired } else s0).token = s0.token := by
    intro s0
    by_cases hc : (s0.token == t && s0.live) = true <;> simp [hc]
  show (d.sessions.map _).find? _ = _
  rw [find?_token_map t _ hg d.sessions]
  rw [Daemon.findSession] at hfind
  rw [hfind]
  have hst := List.find?_some hfind
  show some (if (s.token == t && s.live) = true then
      { s with sstate := SessionState.expired } else s) = _
  by_cases hl : s.live = true
  · rw [if_pos (by rw [Bool.and_eq_true]; exact ⟨hst, hl⟩), if_pos hl]
  · rw [if_neg (by rw [Bool.and_eq_true]; exact fun hand => hl hand.2), if_neg hl]

theorem beginChecking_eq (d : Daemon) (t : Nat) (s : Session)
    (hfind : d.findSession t = some s) (hss : s.sstate = .awaitingFiles) :
    beginChecking d t =
      if s.pendingFileHashes.isEmpty then
        .ok (d.setSession t (fun s0 => { s0 with sstate := .checking }))
      else .error .FilesMissing := by
  unfold beginChecking
  rw [hfind]
  simp only [hss]

theorem sendFileData_eq (d : Daemon) (t : Nat) (files : List FileRecord)
    (s : Session) (hfind : d.findSession t = some s)
    (hss : s.sstate = .awaitingFiles) :
    sendFileData d t files =
      .ok ((neededRecords d.store files).map FileRecord.path,
        { d.setSession t (fun s0 => { s0 with
            pendingFileHashes :=
              ((neededRecords d.store files).filter
                  (fun f => f.content.isNone)).map FileRecord.contentHash }) with
          store := (neededRecords d.store files).filterMap
              (fun f => f.content.map (fun c => (f.contentHash, c))) ++ d.store }) := by
  unfold sendFileData
  rw [hfind]
  simp only [hss]

theorem neededRecords_eq_nil (store : List (String × String))
    (files : List FileRecord)
    (h : ∀ f ∈ files, storeHas store f.contentHash = true) :
    neededRecords store files = [] := by
  rw [neededRecords, List.filter_eq_nil_iff]
  intro f hf
  simp [h f hf]

theorem runLocked_expire (d : Daemon) (t : Nat) (s : Session)
    (_htk : TokensOK d) (hnames : RunNamesOK d)
    (hfind : d.findSession t = some s) (hlive : s.live = true) :
    (expire d t).runLocked s.runName = false := by
  rw [Daemon.runLocked, List.any_eq_false]
  intro x hx
  have hx2 : x ∈ d.sessions.map (fun s0 =>
      if s0.token == t && s0.live then { s0 with sstate := SessionState.expired }
      else s0) := hx
  obtain ⟨v, hv, rfl⟩ := List.mem_map.mp hx2
  by_cases hc : (v.token == t && v.live) = true
  · rw [if_pos hc]
    intro hcontra
    have hfalse : ({ v with sstate := SessionState.expired } : Session).live = false := rfl
    rw [Bool.and_eq_true, hfalse] at hcontra
    exact Bool.false_ne_true hcontra.1
  · rw [if_neg hc]
    intro hcontra
    rw [Bool.and_eq_true] at hcontra
    have hvl : v.live = true := hcontra.1
    have hvr : v.runName = s.runName := by simpa using hcontra.2
    have hvt : v.token ≠ t := by
      intro he
      exact hc (by simp [he, hvl])
    have hsmem : s ∈ d.sessions := List.mem_of_find?_eq_some hfind
    have hstt : s.token = t := by simpa using List.find?_some hfind
    have hvs : v ≠ s := fun he => hvt (he ▸ hstt)
    have hsym : Symmetric (fun a b : Session =>
        a.live = true → b.live = true → a.runName ≠ b.runName) :=
      fun a b hab hb ha => (hab ha hb).symm
    exact hnames.forall hsym hv hsmem hvs hvl hlive hvr

theorem liveCount_expire (d : Daemon) (t : Nat) (s : Session)
    (htk : TokensOK d) (hfind : d.findSession t = some s) (hlive : s.live = true) :
    (expire d t).liveCount + 1 = d.liveCount := by
  have hsmem : s ∈ d.sessions := List.mem_of_find?_eq_some hfind
  have hstt : s.token = t := by simpa using List.find?_some hfind
  refine countP_live_map_succ t _ ?_ ?_ d.sessions htk.1 s hsmem hstt hlive
  · intro a hat
    rw [if_neg (by rw [Bool.and_eq_true]; exact fun hand => hat (by simpa using hand.1))]
  · intro a hat
    by_cases hl : a.live = true
    · rw [if_pos (by rw [Bool.and_eq_true]; exact ⟨by simpa using hat, hl⟩)]
      rfl
    · have hlf : a.live = false := Bool.eq_false_iff.mpr hl
      rw [if_neg (by rw [Bool.and_eq_true]; exact fun hand => hl hand.2)]
      exact hlf

theorem liveCount_sendFileData (d : Daemon) (t : Nat) (files : List FileRecord)
    (P : List String) (d2 : Daemon)
    (hok : sendFileData d t files = .ok (P, d2)) : d2.liveCount = d.liveCount := by
  unfold sendFileData at hok
  split at hok
  · cases hok
  · split at hok
    · simp only [Except.ok.injEq, Prod.mk.injEq] at hok
      obtain ⟨-, rfl⟩ := hok
      show List.countP Session.live (d.sessions.map _) = _
      refine countP_map_eq_of _ _ _ ?_
      intro a _
      by_cases ht : (a.token == t) = true
      · rw [if_pos ht]
        rfl
      · rw [if_neg ht]
    · cases hok

theorem liveCount_beginChecking (d : Daemon) (t : Nat) (d2 : Daemon)
    (htk : TokensOK d) (hok : beginChecking d t = .ok d2) :
    d2.liveCount = d.liveCount := by
  unfold beginChecking at hok
  split at hok
  · cases hok
  · rename_i s hfind
    split at hok
    · rename_i hss
      by_cases hpend : s.pendingFileHashes.isEmpty
      · rw [if_pos hpend] at hok
        cases hok
        have honly := session_unique d htk s t hfind
        show List.countP Session.live (d.sessions.map _) = _
        refine countP_map_eq_of _ _ _ ?_
        intro a ha
        by_cases ht : (a.token == t) = true
        · have ha2 := honly a ha (by simpa using ht)
          rw [if_pos ht, ha2]
          show Session.live { s with sstate := SessionState.checking } = Session.live s
          simp only [Session.live, hss]
          rfl
        · rw [if_neg ht]
      · rw [if_neg hpend] at hok
        cases hok
    · cases hok

theorem liveCount_completeChecking (d : Daemon) (t : Nat) (d2 : Daemon)
    (htk : TokensOK d) (hok : completeChecking d t = .ok d2) :
    d2.liveCount + 1 = d.liveCount := by
  unfold completeChecking at hok
  split at hok
  · cases hok
  · rename_i s hfind
    split at hok
    · rename_i hss
      cases hok
      have hsmem : s ∈ d.sessions := List.mem_of_find?_eq_some hfind
      have hstt : s.token = t := by simpa using List.find?_some hfind
      refine countP_live_map_succ t _ ?_ ?_ d.sessions htk.1 s hsmem hstt ?_
      · intro a hat
        rw [if_neg (fun hand => hat (by simpa using hand))]
      · intro a hat
        rw [if_pos (by simpa using hat)]
        rfl
      · simp only [Session.live, hss]
        rfl
    · cases hok

theorem expire_expire (d : Daemon) (t : Nat) :
    expire (expire d t) t = expire d t := by
  unfold expire
  simp only [List.map_map]
  congr 1
  apply List.map_congr_left
  intro a _
  simp only [Function.comp_apply]
  by_cases hc : (a.token == t && a.live) = true
  · rw [if_pos hc]
    have : ((({ a with sstate := SessionState.expired } : Session).token == t &&
        ({ a with sstate := SessionState.expired } : Session).live)) = false := by
      simp [Session.live, SessionState.isLive]
    rw [if_neg (by simp [this])]
  · rw [if_neg (by simp [hc]), if_neg (by simp [hc])]

theorem expire_of_unknown (d : Daemon) (t : Nat)
    (h : ∀ s ∈ d.sessions, s.token ≠ t) : expire d t = d := by
  unfold expire
  have hmap : d.sessions.map (fun s =>
      if s.token == t && s.live then { s with sstate := SessionState.expired }
      else s) = d.sessions := by
    conv_rhs => rw [← List.map_id d.sessions]
    apply List.map_congr_left
    intro a ha
    rw [if_neg (by simp [h a ha])]
    rfl
  rw [hmap]

theorem fields_stepOp (d : Daemon) (op : DaemonOp) :
    (stepOp d op).maxRuns = d.maxRuns ∧ (stepOp d op).maxJobs = d.maxJobs := by
  cases op with
  | connect r =>
    cases hc : initConnection d r with
    | error e => simp [stepOp, hc]
    | ok v =>
      have hv : v.2.maxRuns = d.maxRuns ∧ v.2.maxJobs = d.maxJobs := by
        unfold initConnection at hc
        by_cases h1 : d.runLocked r
        · simp [h1] at hc
        · by_cases h2 : d.maxRuns ≤ d.liveCount
          · simp [h1, h2] at hc
          · rw [if_neg h1, if_neg h2] at hc
            cases hc
            exact ⟨rfl, rfl⟩
      simp [stepOp, hc, hv.1, hv.2]
  | send t files =>
    cases hc : sendFileData d t files with
    | error e => simp [stepOp, hc]
    | ok v =>
      have hv : v.2.maxRuns = d.maxRuns ∧ v.2.maxJobs = d.maxJobs := by
        unfold sendFileData at hc
        split at hc
        · cases hc
        · split at hc
          · cases hc
            exact ⟨rfl, rfl⟩
          · cases hc
      simp [stepOp, hc, hv.1, hv.2]
  | beginCheck t =>
    cases hc : beginChecking d t with
    | error e => simp [stepOp, hc]
    | ok v =>
      have hv : v.maxRuns = d.maxRuns ∧ v.maxJobs = d.maxJobs := by
        unfold beginChecking at hc
        split at hc
        · cases hc
        · split at hc
          · split at hc
            · cases hc
              exact ⟨rfl, rfl⟩
            · cases hc
          · cases hc
      simp [stepOp, hc, hv.1, hv.2]
  | complete t =>
    cases hc : completeChecking d t with
    | error e => simp [stepOp, hc]
    | ok v =>
      have hv : v.maxRuns = d.maxRuns ∧ v.maxJobs = d.maxJobs := by
        unfold completeChecking at hc
        split at hc
        · cases hc
        · split at hc
          · cases hc
            exact ⟨rfl, rfl⟩
          · cases hc
      simp [stepOp, hc, hv.1, hv.2]
  | expireTok t => exact ⟨rfl, rfl⟩
  | startJ r =>
    cases hc : startJob d r with
    | error e => simp [stepOp, hc]
    | ok v =>
      have hv : v.maxRuns = d.maxRuns ∧ v.maxJobs = d.maxJobs := by
        unfold startJob at hc
        by_cases h1 : d.jobsOf r < d.maxJobs
        · rw [if_pos h1] at hc
          cases hc
          exact ⟨rfl, rfl⟩
        · rw [if_neg h1] at hc
          cases hc
      simp [stepOp, hc, hv.1, hv.2]
  | endJ r => exact ⟨rfl, rfl⟩

theorem fields_runOps (d : Daemon) (ops : List DaemonOp) :
    (runOps d ops).maxRuns = d.maxRuns ∧ (runOps d ops).maxJobs = d.maxJobs := by
  induction ops generalizing d with
  | nil => exact ⟨rfl, rfl⟩
  | cons op ops ih =>
    have h1 := fields_stepOp d op
    have h2 := ih (stepOp d op)
    exact ⟨h2.1.trans h1.1, h2.2.trans h1.2⟩

theorem sendFileData_empty (d : Daemon) (t : Nat) (files : List FileRecord)
    (s : Session) (hfind : d.findSession t = some s)
    (hss : s.sstate = .awaitingFiles)
    (hall : ∀ f ∈ files, storeHas d.store f.contentHash = true) :
    ∃ d2, sendFileData d t files = .ok ([], d2) := by
  rw [sendFileData_eq d t files s hfind hss,
    neededRecords_eq_nil d.store files hall]
  exact ⟨_, rfl⟩

theorem Inv_demoDaemon : Inv demoDaemon := by
  refine ⟨⟨?_, ?_⟩, ?_, ?_, ?_⟩
  · exact List.pairwise_singleton _ _
  · intro s hs
    simp only [demoDaemon] at hs
    rw [List.mem_singleton] at hs
    subst hs
    decide
  · exact List.pairwise_singleton _ _
  · decide
  · intro r
    exact Nat.zero_le 1

/-! ### The claims -/

/-- C1: at most one non-expired session holds a given run name in every
reachable daemon state; `initConnection` fails with `Locked` while the name
is held by a live session; and after `expire` of the holding session's
token, a subsequent `initConnection` for the same name succeeds with a
fresh token. -/
theorem claim_run_name_mutex :
    (∀ (R J : Nat) (ops : List DaemonOp),
        RunNamesOK (runOps (Daemon.initial R J) ops))
    ∧ (∀ (d : Daemon) (r : String), d.runLocked r = true →
        initConnection d r = .error .Locked)
    ∧ (∀ (d : Daemon) (t : Nat) (s : Session), Inv d →
        d.findSession t = some s → s.live = true →
        (expire d t).runLocked s.runName = false ∧
        ∃ d2, initConnection (expire d t) s.runName = .ok (d.nextToken, d2) ∧
          ∀ u ∈ d.sessions, u.token ≠ d.nextToken) := by
  refine ⟨?_, ?_, ?_⟩
  · intro R J ops
    exact (Inv_runOps _ ops (Inv_initial R J)).2.1
  · intro d r h
    unfold initConnection
    rw [if_pos h]
  · intro d t s hInv hfind hlive
    have hrl := runLocked_expire d t s hInv.1 hInv.2.1 hfind hlive
    have hlc := liveCount_expire d t s hInv.1 hfind hlive
    refine ⟨hrl, ?_⟩
    have hcapd : d.liveCount ≤ d.maxRuns := hInv.2.2.1
    have hmr : (expire d t).maxRuns = d.maxRuns := rfl
    have hcap : ¬ ((expire d t).maxRuns ≤ (expire d t).liveCount) := by omega
    have hinit : initConnection (expire d t) s.runName =
        .ok ((expire d t).nextToken,
          { expire d t with
              sessions := ⟨(expire d t).nextToken, s.runName, .awaitingFiles, []⟩ ::
                (expire d t).sessions,
              nextToken := (expire d t).nextToken + 1 }) := by
      unfold initConnection
      rw [if_neg (by rw [hrl]; exact Bool.false_ne_true), if_neg hcap]
    exact ⟨_, hinit, fun u hu => Nat.ne_of_lt (hInv.1.2 u hu)⟩

/-- Witness for C1 at the spec's `"demo"` scenario (R = 1). -/
theorem claim_run_name_mutex_witness :
    (expire demoDaemon 0).runLocked "demo" = false ∧
    ∃ d2, initConnection (expire demoDaemon 0) "demo" = .ok (1, d2) ∧
      ∀ u ∈ demoDaemon.sessions, u.token ≠ 1 :=
  claim_run_name_mutex.2.2 demoDaemon 0
    { token := 0, runName := "demo", sstate := .awaitingFiles,
      pendingFileHashes := [] }
    Inv_demoDaemon rfl rfl

/-- C2: in the trace of `CodeChecker-Hijacker.sh`, every collect job
reports terminal status before the compact invocation runs, and the compact
invocation runs before every diagnose job. -/
theorem claim_multipass_order (n i j k a b : Nat)
    (hi : (hijackerTrace n)[i]? = some (.jobTerminal .collect a))
    (hj : (hijackerTrace n)[j]? = some .compactRun)
    (hk : (hijackerTrace n)[k]? = some (.jobTerminal .diagnose b)) :
    i < j ∧ j < k := by
  have h1 := hijackerTrace_collect_lt n i a hi
  have h2 := hijackerTrace_compact_eq n j hj
  have h3 := hijackerTrace_diagnose_gt n k b hk
  omega

/-- Witness for C2 on a one-file project. -/
theorem claim_multipass_order_witness : (0 : Nat) < 1 ∧ (1 : Nat) < 2 :=
  claim_multipass_order 1 0 1 2 0 0 rfl rfl rfl

/-- C3: in state `AwaitingFiles`, `beginChecking` fails with `FilesMissing`
exactly when `pendingFileHashes` is non-empty; when it is empty the call
succeeds and the session transitions to `Checking`. -/
theorem claim_beginChecking_filesMissing (d : Daemon) (t : Nat) (s : Session)
    (hfind : d.findSession t = some s) (hss : s.sstate = .awaitingFiles) :
    (beginChecking d t = .error .FilesMissing ↔ s.pendingFileHashes ≠ [])
    ∧ (s.pendingFileHashes = [] →
        ∃ d2, beginChecking d t = .ok d2 ∧
          d2.findSession t = some { s with sstate := .checking }) := by
  rw [beginChecking_eq d t s hfind hss]
  constructor
  · by_cases hp : s.pendingFileHashes.isEmpty = true
    · rw [if_pos hp]
      have hnil := List.isEmpty_iff.mp hp
      exact ⟨fun hcontra => Except.noConfusion hcontra, fun hne => absurd hnil hne⟩
    · rw [if_neg hp]
      have hne : s.pendingFileHashes ≠ [] := fun hnil => hp (by rw [hnil]; rfl)
      exact ⟨fun _ => hne, fun _ => rfl⟩
  · intro hnil
    have hp : s.pendingFileHashes.isEmpty = true := by rw [hnil]; rfl
    rw [if_pos hp]
    exact ⟨_, rfl, findSession_setSession d t
      (fun s0 => { s0 with sstate := SessionState.checking })
      (fun s0 => rfl) s hfind⟩

/-- Witness for C3: the demo session has no pending hashes, so
`beginChecking` succeeds. -/
theorem claim_beginChecking_filesMissing_witness :
    (beginChecking demoDaemon 0 = .error .FilesMissing ↔
      ({ token := 0, runName := "demo", sstate := SessionState.awaitingFiles,
         pendingFileHashes := [] } : Session).pendingFileHashes ≠ [])
    ∧ (({ token := 0, runName := "demo", sstate := SessionState.awaitingFiles,
          pendingFileHashes := [] } : Session).pendingFileHashes = [] →
        ∃ d2, beginChecking demoDaemon 0 = .ok d2 ∧
          d2.findSession 0 =
            some { token := 0, runName := "demo",
                   sstate := SessionState.checking, pendingFileHashes := [] }) :=
  claim_beginChecking_filesMissing demoDaemon 0
    { token := 0, runName := "demo", sstate := .awaitingFiles,
      pendingFileHashes := [] } rfl rfl

/-- C4: `sendFileData` returns exactly the paths of the records whose hash
the Content Store does not hold; the store only grows (matched files are
left unchanged); and a record is needed precisely when its hash is absent,
independently of the path it is stored under. -/
theorem claim_sendFileData_needed (d : Daemon) (t : Nat)
    (files : List FileRecord) (s : Session)
    (hfind : d.findSession t = some s) (hss : s.sstate = .awaitingFiles) :
    ∃ d2,
      sendFileData d t files =
        .ok ((files.filter (fun f => !(storeHas d.store f.contentHash))).map
              FileRecord.path, d2)
      ∧ d2.store = (neededRecords d.store files).filterMap
          (fun f => f.content.map (fun c => (f.contentHash, c))) ++ d.store
      ∧ (∀ h0, storeHas d.store h0 = true → storeHas d2.store h0 = true)
      ∧ (∀ f ∈ files, storeHas d.store f.contentHash = true →
          f ∉ neededRecords d.store files)
      ∧ (∀ f : FileRecord,
          f ∈ neededRecords d.store files ↔
            f ∈ files ∧ storeHas d.store f.contentHash = false) := by
  rw [sendFileData_eq d t files s hfind hss]
  refine ⟨_, rfl, rfl, ?_, ?_, ?_⟩
  · intro h0 hh
    show storeHas (_ ++ d.store) h0 = true
    rw [storeHas, List.any_append]
    rw [storeHas] at hh
    rw [hh, Bool.or_true]
  · intro f hf hstore hmem
    have h2 := (List.mem_filter.mp hmem).2
    rw [hstore] at h2
    cases h2
  · intro f
    rw [neededRecords, List.mem_filter]
    constructor
    · intro h
      exact ⟨h.1, by simpa using h.2⟩
    · intro h
      exact ⟨h.1, by rw [h.2]; rfl⟩

/-- Witness for C4 at the spec scenario: the server already stores hash
`h1` (under a different path), so only `b.c` is needed. -/
theorem claim_sendFileData_needed_witness :
    ∃ d2,
      sendFileData { demoDaemon with store := [("h1", "other")] } 0 demoFiles =
        .ok ((demoFiles.filter (fun f =>
              !(storeHas [("h1", "other")] f.contentHash))).map
              FileRecord.path, d2)
      ∧ d2.store = (neededRecords [("h1", "other")] demoFiles).filterMap
          (fun f => f.content.map (fun c => (f.contentHash, c))) ++
          [("h1", "other")]
      ∧ (∀ h0, storeHas [("h1", "other")] h0 = true →
          storeHas d2.store h0 = true)
      ∧ (∀ f ∈ demoFiles, storeHas [("h1", "other")] f.contentHash = true →
          f ∉ neededRecords [("h1", "other")] demoFiles)
      ∧ (∀ f : FileRecord,
          f ∈ neededRecords [("h1", "other")] demoFiles ↔
            f ∈ demoFiles ∧ storeHas [("h1", "other")] f.contentHash = false) :=
  claim_sendFileData_needed { demoDaemon with store := [("h1", "other")] } 0
    demoFiles
    { token := 0, runName := "demo", sstate := .awaitingFiles,
      pendingFileHashes := [] } rfl rfl

/-- The spec's needed-list scenario, evaluated: with `h1` already stored
under another path, only `"b.c"` is reported as needed. -/
theorem demo_needed_list :
    ∃ d2, sendFileData { demoDaemon with store := [("h1", "other")] } 0
      demoFiles = .ok (["b.c"], d2) :=
  ⟨_, rfl⟩

/-- C5: when a file list is sent with all contents supplied inline, a second
`sendFileData` of the same list returns an empty needed-list: storage under
a hash is idempotent and nothing already stored is requested again. -/
theorem claim_sendFileData_idempotent (d : Daemon) (t : Nat)
    (files : List FileRecord) (s : Session)
    (hfind : d.findSession t = some s) (hss : s.sstate = .awaitingFiles)
    (hcontent : ∀ f ∈ files, f.content.isSome = true) :
    ∃ P d1, sendFileData d t files = .ok (P, d1) ∧
      ∃ d2, sendFileData d1 t files = .ok ([], d2) := by
  have h1 := sendFileData_eq d t files s hfind hss
  refine ⟨_, _, h1, ?_⟩
  refine sendFileData_empty _ t files
    { s with pendingFileHashes := ((neededRecords d.store files).filter
        (fun f => f.content.isNone)).map FileRecord.contentHash }
    ?_ hss ?_
  · exact findSession_setSession d t
      (fun s0 => { s0 with pendingFileHashes :=
        ((neededRecords d.store files).filter
          (fun f => f.content.isNone)).map FileRecord.contentHash })
      (fun s0 => rfl) s hfind
  · intro f hf
    show storeHas (_ ++ d.store) f.contentHash = true
    rw [storeHas, List.any_append]
    by_cases hs0 : storeHas d.store f.contentHash = true
    · rw [storeHas] at hs0
      rw [hs0, Bool.or_true]
    · have hmem : f ∈ neededRecords d.store files := by
        rw [neededRecords, List.mem_filter]
        refine ⟨hf, ?_⟩
        rw [Bool.eq_false_iff.mpr hs0]
        rfl
      obtain ⟨c, hc⟩ := Option.isSome_iff_exists.mp (hcontent f hf)
      have hsup : ((neededRecords d.store files).filterMap
          (fun f => f.content.map (fun c => (f.contentHash, c)))).any
            (fun e => e.1 == f.contentHash) = true := by
        rw [List.any_eq_true]
        refine ⟨(f.contentHash, c), ?_, by simp⟩
        rw [List.mem_filterMap]
        exact ⟨f, hmem, by rw [hc]; rfl⟩
      rw [hsup, Bool.true_or]

/-- Witness for C5: the demo session resends the same two files. -/
theorem claim_sendFileData_idempotent_witness :
    ∃ P d1, sendFileData demoDaemon 0 demoFiles = .ok (P, d1) ∧
      ∃ d2, sendFileData d1 0 demoFiles = .ok ([], d2) :=
  claim_sendFileData_idempotent demoDaemon 0 demoFiles
    { token := 0, runName := "demo", sstate := .awaitingFiles,
      pendingFileHashes := [] } rfl rfl (by decide)

/-- C6: `expire` is total over tokens (it returns a state, never an error),
idempotent (a second `expire` of the same token changes nothing, so the
run-name lock and capacity are never released twice), a no-op on a token no
session carries, and accepted mid-`Checking`. -/
theorem claim_expire_idempotent (d : Daemon) (t : Nat) :
    expire (expire d t) t = expire d t
    ∧ ((∀ s ∈ d.sessions, s.token ≠ t) → expire d t = d)
    ∧ (∀ s : Session, d.findSession t = some s → s.sstate = .checking →
        (expire d t).findSession t = some { s with sstate := .expired })
    ∧ (expire d t).liveCount ≤ d.liveCount
    ∧ (expire (expire d t) t).liveCount = (expire d t).liveCount := by
  refine ⟨expire_expire d t, expire_of_unknown d t, ?_, ?_, ?_⟩
  · intro s hfind hss
    rw [findSession_expire d t s hfind]
    have hl : s.live = true := by
      simp only [Session.live, hss]
      rfl
    rw [if_pos hl]
  · show (d.sessions.map _).countP Session.live ≤ d.sessions.countP Session.live
    refine countP_map_le_of _ _ _ ?_
    intro a _ hl
    by_cases hc : (a.token == t && a.live) = true
    · rw [Bool.and_eq_true] at hc
      exact hc.2
    · rw [if_neg hc] at hl
      exact hl
  · exact congrArg Daemon.liveCount (expire_expire d t)

/-- Witness for C6: expiring an unknown token twice on the demo daemon. -/
theorem claim_expire_idempotent_witness :
    (expire (expire demoDaemon 5) 5 = expire demoDaemon 5)
    ∧ (expire demoDaemon 5 = demoDaemon)
    ∧ ((expire { demoDaemon with
          sessions := [{ token := 0, runName := "demo",
                         sstate := .checking, pendingFileHashes := [] }] }
          0).findSession 0 =
        some { token := 0, runName := "demo", sstate := .expired,
               pendingFileHashes := [] }) := by
  refine ⟨(claim_expire_idempotent demoDaemon 5).1,
    (claim_expire_idempotent demoDaemon 5).2.1 (by decide), ?_⟩
  exact (claim_expire_idempotent { demoDaemon with sessions :=
    [{ token := 0, runName := "demo", sstate := .checking,
       pendingFileHashes := [] }] } 0).2.2.1
    { token := 0, runName := "demo", sstate := .checking,
      pendingFileHashes := [] } rfl rfl

/-- C7: in every reachable daemon state, at most R runs are concurrently
locked and at most J jobs run concurrently within each run; `sendFileData`
and `beginChecking` never release capacity, while `expire` of a live
session and completion of a checking session each release exactly one run
slot. -/
theorem claim_scheduler_bounds :
    (∀ (R J : Nat) (ops : List DaemonOp),
        (runOps (Daemon.initial R J) ops).liveCount ≤ R ∧
        ∀ r, (runOps (Daemon.initial R J) ops).jobsOf r ≤ J)
    ∧ (∀ (d : Daemon) (t : Nat) (files : List FileRecord) (P : List String)
        (d2 : Daemon), sendFileData d t files = .ok (P, d2) →
        d2.liveCount = d.liveCount)
    ∧ (∀ (d : Daemon) (t : Nat) (d2 : Daemon), TokensOK d →
        beginChecking d t = .ok d2 → d2.liveCount = d.liveCount)
    ∧ (∀ (d : Daemon) (t : Nat) (s : Session), TokensOK d →
        d.findSession t = some s → s.live = true →
        (expire d t).liveCount + 1 = d.liveCount)
    ∧ (∀ (d : Daemon) (t : Nat) (d2 : Daemon), TokensOK d →
        completeChecking d t = .ok d2 → d2.liveCount + 1 = d.liveCount) := by
  refine ⟨?_, liveCount_sendFileData, liveCount_beginChecking,
    liveCount_expire, liveCount_completeChecking⟩
  intro R J ops
  have hInv := Inv_runOps _ ops (Inv_initial R J)
  have hf := fields_runOps (Daemon.initial R J) ops
  constructor
  · exact Nat.le_trans hInv.2.2.1 (Nat.le_of_eq (hf.1.trans rfl))
  · intro r
    exact Nat.le_trans (hInv.2.2.2 r) (Nat.le_of_eq (hf.2.trans rfl))

/-- Witness for C7: a one-connect arrival order and an expire release. -/
theorem claim_scheduler_bounds_witness :
    ((runOps (Daemon.initial 1 1) [DaemonOp.connect "demo"]).liveCount ≤ 1)
    ∧ (expire demoDaemon 0).liveCount + 1 = demoDaemon.liveCount := by
  refine ⟨(claim_scheduler_bounds.1 1 1 [DaemonOp.connect "demo"]).1, ?_⟩
  exact claim_scheduler_bounds.2.2.2.1 demoDaemon 0
    { token := 0, runName := "demo", sstate := .awaitingFiles,
      pendingFileHashes := [] } Inv_demoDaemon.1 rfl rfl

/-- C8: in the final `RemoteChecking` service every method except
`pollCheckAvailability` and `getCheckerList` declares the structured
`RequestFailed` error, which carries one of exactly the six codes GENERAL,
DATABASE, IOERROR, AUTH_DENIED, UNAUTHORIZED, API_MISMATCH (wire values
2, 0, 1, 3, 4, 5) together with a message and extra-info strings. -/
theorem claim_error_surface :
    (remoteCheckingService.all (fun m =>
        m.throwsRequestFailed ==
          (m.name != "pollCheckAvailability" &&
           m.name != "getCheckerList"))) = true
    ∧ (∀ c : ErrorCode, c ∈ allErrorCodes)
    ∧ allErrorCodes.map ErrorCode.value = [2, 0, 1, 3, 4, 5]
    ∧ allErrorCodes.Nodup
    ∧ (∀ e : RequestFailed,
        e = { errorCode := e.errorCode, message := e.message,
              extraInfo := e.extraInfo }) :=
  ⟨by decide, by decide, by decide, by decide, fun e => rfl⟩

/-! ### Association-list lemmas for the JavaScript object model -/

theorem find?_map_set {α : Type} (k : String) (v : α) (l : List (String × α))
    (h : (l.find? (fun p => p.1 == k)).isSome = true) :
    (l.map (fun p => if p.1 == k then (k, v) else p)).find?
      (fun p => p.1 == k) = some (k, v) := by
  induction l with
  | nil => exact absurd h (by simp)
  | cons a l ih =>
    by_cases ha : (a.1 == k) = true
    · rw [List.map_cons, if_pos ha, List.find?_cons]
      simp
    · have hfa : (a.1 == k) = false := Bool.eq_false_iff.mpr ha
      rw [List.find?_cons] at h
      simp only [hfa] at h
      rw [List.map_cons, if_neg ha, List.find?_cons]
      simp only [hfa]
      exact ih h

theorem alookup_setK_self {α : Type} (l : List (String × α)) (k : String)
    (v : α) : alookup (setK l k v) k = some v := by
  rw [setK]
  by_cases h : (l.find? (fun p => p.1 == k)).isSome = true
  · rw [if_pos h, alookup, find?_map_set k v l h]
    rfl
  · rw [if_neg h, alookup, List.find?_append]
    have hnone : l.find? (fun p => p.1 == k) = none := by
      cases hc : l.find? (fun p => p.1 == k)
      · rfl
      · rw [hc] at h
        exact absurd rfl h
    rw [hnone, Option.none_or, List.find?_cons_of_pos _ (by simp)]
    rfl

theorem find?_map_invariant {α : Type} (f : α → α) (p2 : α → Bool)
    (hkeep : ∀ a, p2 a = true → f a = a)
    (hmiss : ∀ a, p2 a = false → p2 (f a) = false) (l : List α) :
    (l.map f).find? p2 = l.find? p2 := by
  induction l with
  | nil => rfl
  | cons a l ih =>
    rw [List.map_cons]
    by_cases ha : p2 a = true
    · rw [hkeep a ha, List.find?_cons_of_pos _ ha, List.find?_cons_of_pos _ ha]
    · have hfa := hmiss a (Bool.eq_false_iff.mpr ha)
      rw [List.find?_cons_of_neg _ (by rw [hfa]; exact Bool.false_ne_true),
        List.find?_cons_of_neg _ ha, ih]

theorem alookup_setK_ne {α : Type} (l : List (String × α)) (k k2 : String)
    (v : α) (h : k2 ≠ k) : alookup (setK l k v) k2 = alookup l k2 := by
  rw [setK]
  by_cases hs : (l.find? (fun p => p.1 == k)).isSome = true
  · rw [if_pos hs, alookup, alookup]
    have hkeep : ∀ a : String × α, (a.1 == k2) = true →
        (if a.1 == k then (k, v) else a) = a := by
      intro a ha
      have ha2 : a.1 = k2 := by simpa using ha
      rw [if_neg (by rw [ha2]; simp [h])]
    have hmiss : ∀ a : String × α, (a.1 == k2) = false →
        ((if a.1 == k then (k, v) else a).1 == k2) = false := by
      intro a ha
      by_cases hak : (a.1 == k) = true
      · rw [if_pos hak]
        have hne : ¬ k = k2 := fun hc => h hc.symm
        simp [hne]
      · rw [if_neg hak]
        exact ha
    rw [find?_map_invariant _ _ hkeep hmiss l]
  · rw [if_neg hs, alookup, alookup, List.find?_append]
    cases hc : l.find? (fun p => p.1 == k2) with
    | some a => rw [Option.or_some]
    | none =>
      rw [Option.none_or, List.find?_cons]
      have hne : ((k, v).1 == k2) = false := by
        have : ¬ k = k2 := fun hc => h hc.symm
        simpa using this
      simp only [hne]
      rfl

theorem alookup_nil {α : Type} (k : String) :
    alookup ([] : List (String × α)) k = none := rfl

theorem alookup_isSome_none {α : Type} (l : List (String × α)) (k : String)
    (h : ¬ (alookup l k).isSome = true) : alookup l k = none := by
  cases hc : alookup l k
  · rfl
  · rw [hc] at h
    exact absurd rfl h

theorem alookup_singleton_ne {α : Type} (k k2 : String) (v : α)
    (h : k2 ≠ k) : alookup [(k, v)] k2 = none := by
  rw [alookup, List.find?_cons]
  have hf : (k == k2) = false := by simpa using fun hc => h hc.symm
  simp only [hf]
  rfl

/-! ### The enabled-flag semantics of `reduceCheckerStatuses` -/

theorem flagOf_ensureAnalyzer (acc : CheckerStatuses) (a2 a g c : String) :
    flagOf (ensureAnalyzer acc a2) a g c = flagOf acc a g c := by
  rw [ensureAnalyzer]
  by_cases hs : (alookup acc a2).isSome = true
  · rw [if_pos hs]
  · rw [if_neg hs]
    by_cases ha : a = a2
    · subst ha
      rw [flagOf, flagOf, alookup_setK_self, alookup_isSome_none acc a hs]
      rw [Option.some_bind, Option.none_bind]
      by_cases hg : g = NoGroup
      · subst hg
        rw [show alookup [(NoGroup, ([] : List (String × Bool)))] NoGroup =
          some [] from rfl]
        rfl
      · rw [alookup_singleton_ne _ _ _ hg]
        rfl
    · rw [flagOf, flagOf, alookup_setK_ne _ _ _ _ ha]

theorem alookup_cmOf (acc : CheckerStatuses) (a2 group c : String) :
    alookup (cmOf acc a2 group) c = flagOf acc a2 group c := by
  rw [cmOf, gm1Of, flagOf]
  cases halook : alookup acc a2 with
  | none =>
    rw [Option.none_bind]
    have hgm : gmOf acc a2 = [] := by rw [gmOf, halook]; rfl
    rw [hgm, alookup_nil]
    simp only [Option.isSome_none, Bool.false_eq_true, if_false]
    rw [alookup_setK_self]
    rfl
  | some gm0 =>
    rw [Option.some_bind]
    have hgm : gmOf acc a2 = gm0 := by rw [gmOf, halook]; rfl
    rw [hgm]
    cases hglook : alookup gm0 group with
    | none =>
      simp only [Option.isSome_none, Bool.false_eq_true, if_false,
        Option.none_bind]
      rw [alookup_setK_self]
      rfl
    | some cm0 =>
      simp only [Option.isSome_some, if_true, Option.some_bind]
      rw [hglook]
      rfl

theorem alookup_gm1Of_ne (acc : CheckerStatuses) (a2 group g : String)
    (hg : g ≠ group) :
    alookup (gm1Of acc a2 group) g = alookup (gmOf acc a2) g := by
  rw [gm1Of]
  by_cases hglook : (alookup (gmOf acc a2) group).isSome = true
  · rw [if_pos hglook]
  · rw [if_neg hglook, alookup_setK_ne _ _ _ _ hg]

theorem flagOf_applyChecker (acc : CheckerStatuses) (a2 c2 : String) (e : Bool)
    (a g c : String) :
    flagOf (applyChecker acc a2 c2 e) a g c =
      if a2 = a ∧ c2 = c ∧ g = getTopLevelCheckGroup a2 c2 then
        some (((flagOf acc a g c).getD false) || e)
      else flagOf acc a g c := by
  by_cases ha : a2 = a
  case neg =>
    rw [if_neg (show ¬ (a2 = a ∧ c2 = c ∧ g = getTopLevelCheckGroup a2 c2)
      from fun hand => ha hand.1)]
    rw [flagOf, flagOf, applyChecker]
    rw [alookup_setK_ne _ _ _ _ (fun hc => ha hc.symm)]
  case pos =>
    subst ha
    rw [flagOf, applyChecker]
    rw [alookup_setK_self, Option.some_bind]
    by_cases hg : g = getTopLevelCheckGroup a2 c2
    case neg =>
      rw [if_neg (show ¬ (a2 = a2 ∧ c2 = c ∧ g = getTopLevelCheckGroup a2 c2)
        from fun hand => hg hand.2.2)]
      rw [alookup_setK_ne _ _ _ _ hg, alookup_gm1Of_ne _ _ _ _ hg]
      rw [flagOf, gmOf]
      cases halook : alookup acc a2 with
      | none => rfl
      | some gm0 => rfl
    case pos =>
      subst hg
      rw [alookup_setK_self, Option.some_bind]
      by_cases hc : c2 = c
      case pos =>
        subst hc
        rw [if_pos ⟨rfl, rfl, rfl⟩, alookup_setK_self, alookup_cmOf]
      case neg =>
        rw [if_neg (show ¬ (a2 = a2 ∧ c2 = c ∧
            getTopLevelCheckGroup a2 c2 = getTopLevelCheckGroup a2 c2)
          from fun hand => hc hand.2.1)]
        rw [alookup_setK_ne _ _ _ _ (fun hcc => hc hcc.symm), alookup_cmOf]

theorem orFold_append (x : Option Bool) (l1 l2 : List Bool) :
    orFold x (l1 ++ l2) = orFold (orFold x l1) l2 := by
  rw [orFold, orFold, orFold, List.foldl_append]

theorem orFold_some (b : Bool) (fs : List Bool) :
    orFold (some b) fs = some (b || fs.any id) := by
  induction fs generalizing b with
  | nil =>
    rw [orFold]
    simp
  | cons f fs ih =>
    rw [show orFold (some b) (f :: fs) = orFold (some (b || f)) fs from rfl, ih]
    simp [Bool.or_assoc]

theorem orFold_none (fs : List Bool) :
    orFold none fs = if fs.isEmpty then none else some (fs.any id) := by
  cases fs with
  | nil => rfl
  | cons f fs =>
    rw [show orFold none (f :: fs) = orFold (some (false || f)) fs from rfl]
    rw [Bool.false_or, orFold_some]
    simp

theorem flagOf_applyList (a2 : String) (cs : List (String × Bool))
    (acc : CheckerStatuses) (a g c : String) :
    flagOf (cs.foldl (fun ac q => applyChecker ac a2 q.1 q.2) acc) a g c =
      if a2 = a ∧ g = getTopLevelCheckGroup a c then
        orFold (flagOf acc a g c) ((cs.filter (fun q => q.1 == c)).map Prod.snd)
      else flagOf acc a g c := by
  induction cs generalizing acc with
  | nil =>
    by_cases h : a2 = a ∧ g = getTopLevelCheckGroup a c
    · rw [if_pos h]
      rfl
    · rw [if_neg h]
      rfl
  | cons q cs ih =>
    rw [List.foldl_cons, ih (applyChecker acc a2 q.1 q.2), flagOf_applyChecker]
    by_cases hcond : a2 = a ∧ g = getTopLevelCheckGroup a c
    case pos =>
      simp only [if_pos hcond]
      obtain ⟨ha, hgc⟩ := hcond
      subst ha
      by_cases hq : q.1 = c
      · have hcanq : g = getTopLevelCheckGroup a2 q.1 := by
          rw [hq]
          exact hgc
        rw [if_pos ⟨rfl, hq, hcanq⟩]
        rw [List.filter_cons_of_pos (by simpa using hq), List.map_cons]
        rw [show orFold (flagOf acc a2 g c)
            (q.2 :: ((cs.filter (fun q => q.1 == c)).map Prod.snd)) =
          orFold (some ((flagOf acc a2 g c).getD false || q.2))
            ((cs.filter (fun q => q.1 == c)).map Prod.snd) from rfl]
      · rw [if_neg (show ¬ (a2 = a2 ∧ q.1 = c ∧ g = getTopLevelCheckGroup a2 q.1)
          from fun hand => hq hand.2.1)]
        rw [List.filter_cons_of_neg (by simpa using hq)]
    case neg =>
      simp only [if_neg hcond]
      rw [if_neg (show ¬ (a2 = a ∧ q.1 = c ∧ g = getTopLevelCheckGroup a2 q.1)
        from ?_)]
      intro hand
      obtain ⟨ha, hq, hcan⟩ := hand
      refine hcond ⟨ha, ?_⟩
      rw [← ha, ← hq]
      exact hcan

theorem entryFlags_cons (p : String × List (String × Bool))
    (r : AnalysisRecord) (a c : String) :
    entryFlags (p :: r) a c =
      (if p.1 == a then (p.2.filter (fun q => q.1 == c)).map Prod.snd
       else []) ++ entryFlags r a c := by
  by_cases hp : (p.1 == a) = true <;>
    simp [entryFlags, List.filter_cons, hp]

theorem flagOf_reduce (r : AnalysisRecord) (acc : CheckerStatuses)
    (a g c : String) :
    flagOf (reduceCheckerStatuses acc r) a g c =
      if g = getTopLevelCheckGroup a c then
        orFold (flagOf acc a g c) (entryFlags r a c)
      else flagOf acc a g c := by
  induction r generalizing acc with
  | nil =>
    by_cases hcan : g = getTopLevelCheckGroup a c
    · rw [if_pos hcan]
      rfl
    · rw [if_neg hcan]
      rfl
  | cons p r ih =>
    rw [show reduceCheckerStatuses acc (p :: r) =
      reduceCheckerStatuses
        (p.2.foldl (fun a2 q => applyChecker a2 p.1 q.1 q.2)
          (ensureAnalyzer acc p.1)) r from rfl]
    rw [ih, flagOf_applyList, flagOf_ensureAnalyzer, entryFlags_cons]
    by_cases hcan : g = getTopLevelCheckGroup a c
    case pos =>
      simp only [if_pos hcan]
      rw [orFold_append]
      congr 1
      by_cases hp : p.1 = a
      · have hpb : (p.1 == a) = true := by simpa using hp
        rw [if_pos ⟨hp, hcan⟩, if_pos hpb]
      · have hpb : ¬ (p.1 == a) = true := by simpa using hp
        rw [if_neg (fun hand => hp hand.1), if_neg hpb]
        rfl
    case neg =>
      simp only [if_neg hcan]
      rw [if_neg (fun hand => hcan hand.2)]

theorem flagOf_foldRecords (records : List AnalysisRecord)
    (acc : CheckerStatuses) (a g c : String) :
    flagOf (records.foldl reduceCheckerStatuses acc) a g c =
      if g = getTopLevelCheckGroup a c then
        orFold (flagOf acc a g c) (allFlags records a c)
      else flagOf acc a g c := by
  induction records generalizing acc with
  | nil =>
    by_cases hcan : g = getTopLevelCheckGroup a c
    · rw [if_pos hcan]
      rfl
    · rw [if_neg hcan]
      rfl
  | cons r records ih =>
    rw [List.foldl_cons, ih, flagOf_reduce]
    rw [show allFlags (r :: records) a c =
      entryFlags r a c ++ allFlags records a c from rfl]
    by_cases hcan : g = getTopLevelCheckGroup a c
    · simp only [if_pos hcan]
      rw [orFold_append]
    · simp only [if_neg hcan]

theorem any_of_perm (l₁ l₂ : List Bool) (h : l₁.Perm l₂) (p : Bool → Bool) :
    l₁.any p = l₂.any p := by
  induction h with
  | nil => rfl
  | cons x _ ih => rw [List.any_cons, List.any_cons, ih]
  | swap x y l =>
    rw [List.any_cons, List.any_cons, List.any_cons, List.any_cons,
      ← Bool.or_assoc, Bool.or_comm (p y) (p x), Bool.or_assoc]
  | trans _ _ ih1 ih2 => rw [ih1, ih2]

theorem isEmpty_eq_decide (l : List Bool) :
    l.isEmpty = decide (l.length = 0) := by
  cases l <;> rfl

theorem flagOf_fold_normal (rs : List AnalysisRecord) (a g c : String) :
    flagOf (rs.foldl reduceCheckerStatuses []) a g c =
      if g = getTopLevelCheckGroup a c then
        (if (allFlags rs a c).isEmpty then none
         else some ((allFlags rs a c).any id))
      else none := by
  rw [flagOf_foldRecords]
  by_cases hcan : g = getTopLevelCheckGroup a c
  · simp only [if_pos hcan]
    rw [show flagOf [] a g c = none from rfl, orFold_none]
  · simp only [if_neg hcan]
    rfl

/-- C10: folding analysis-info records with `reduceCheckerStatuses` yields,
at the checker's group, an enabled flag that is `true` exactly when at
least one record marks the checker enabled; appending further records never
turns an enabled flag off; and the flags are invariant under reordering of
the records. -/
theorem claim_reduce_checker_or (records : List AnalysisRecord)
    (a g c : String) :
    (flagOf (records.foldl reduceCheckerStatuses []) a g c = some true ↔
      g = getTopLevelCheckGroup a c ∧ ∃ r ∈ records, true ∈ entryFlags r a c)
    ∧ (∀ more : List AnalysisRecord,
        flagOf (records.foldl reduceCheckerStatuses []) a g c = some true →
        flagOf ((records ++ more).foldl reduceCheckerStatuses []) a g c =
          some true)
    ∧ (∀ records2 : List AnalysisRecord, records.Perm records2 →
        flagOf (records2.foldl reduceCheckerStatuses []) a g c =
          flagOf (records.foldl reduceCheckerStatuses []) a g c) := by
  refine ⟨?_, ?_, ?_⟩
  · rw [flagOf_fold_normal]
    constructor
    · intro h
      by_cases hcan : g = getTopLevelCheckGroup a c
      · refine ⟨hcan, ?_⟩
        rw [if_pos hcan] at h
        by_cases hemp : (allFlags records a c).isEmpty = true
        · rw [if_pos hemp] at h
          cases h
        · rw [if_neg hemp] at h
          have hany : (allFlags records a c).any id = true := Option.some.inj h
          obtain ⟨b, hb, hpb⟩ := List.any_eq_true.mp hany
          have hbt : b = true := hpb
          subst hbt
          obtain ⟨r, hr, hmem⟩ := List.mem_flatMap.mp hb
          exact ⟨r, hr, hmem⟩
      · rw [if_neg hcan] at h
        cases h
    · rintro ⟨hcan, r, hr, hmem⟩
      rw [if_pos hcan]
      have hbmem : true ∈ allFlags records a c :=
        List.mem_flatMap.mpr ⟨r, hr, hmem⟩
      have hnemp : ¬ (allFlags records a c).isEmpty = true := by
        intro hemp
        rw [List.isEmpty_iff] at hemp
        rw [hemp] at hbmem
        cases hbmem
      rw [if_neg hnemp, List.any_eq_true.mpr ⟨true, hbmem, rfl⟩]
  · intro more h
    rw [flagOf_fold_normal] at h ⊢
    by_cases hcan : g = getTopLevelCheckGroup a c
    · rw [if_pos hcan] at h ⊢
      by_cases hemp : (allFlags records a c).isEmpty = true
      · rw [if_pos hemp] at h
        cases h
      · rw [if_neg hemp] at h
        have happ : allFlags (records ++ more) a c =
            allFlags records a c ++ allFlags more a c := by
          rw [allFlags, allFlags, allFlags, List.flatMap_append]
        have hemp2 : ¬ (allFlags (records ++ more) a c).isEmpty = true := by
          rw [happ]
          intro hc
          rw [List.isEmpty_iff] at hc
          rw [List.isEmpty_iff] at hemp
          exact hemp (List.append_eq_nil.mp hc).1
        rw [if_neg hemp2, happ, List.any_append]
        have hany : (allFlags records a c).any id = true := Option.some.inj h
        rw [hany, Bool.true_or]
    · rw [if_neg hcan] at h
      cases h
  · intro records2 hperm
    rw [flagOf_fold_normal, flagOf_fold_normal]
    have hpf : (allFlags records a c).Perm (allFlags records2 a c) :=
      hperm.flatMap_right (fun r => entryFlags r a c)
    have h1 : (allFlags records2 a c).isEmpty =
        (allFlags records a c).isEmpty := by
      rw [isEmpty_eq_decide, isEmpty_eq_decide, hpf.length_eq]
    have h2 : (allFlags records2 a c).any id = (allFlags records a c).any id :=
      (any_of_perm _ _ hpf id).symm
    rw [h1, h2]

/-- Witness for C10 on a concrete one-record response, resent twice. -/
theorem claim_reduce_checker_or_witness :
    flagOf (demoRecords.foldl reduceCheckerStatuses []) "clangsa"
      (getTopLevelCheckGroup "clangsa" "core.DivideZero")
      "core.DivideZero" = some true
    ∧ flagOf ((demoRecords ++ demoRecords).foldl reduceCheckerStatuses [])
        "clangsa" (getTopLevelCheckGroup "clangsa" "core.DivideZero")
        "core.DivideZero" = some true
    ∧ flagOf (demoRecords.foldl reduceCheckerStatuses []) "clangsa"
        (getTopLevelCheckGroup "clangsa" "core.DivideZero")
        "core.DivideZero" =
      flagOf (demoRecords.foldl reduceCheckerStatuses []) "clangsa"
        (getTopLevelCheckGroup "clangsa" "core.DivideZero")
        "core.DivideZero" := by
  have hthm := claim_reduce_checker_or demoRecords "clangsa"
    (getTopLevelCheckGroup "clangsa" "core.DivideZero") "core.DivideZero"
  have hflag := hthm.1.mpr ⟨rfl,
    [("clangsa", [("core.DivideZero", true)])], by decide, by decide⟩
  exact ⟨hflag, hthm.2.1 demoRecords hflag,
    hthm.2.2 demoRecords (List.Perm.refl _)⟩

/-! ### The counts semantics of `sortAndStoreCheckerInfo` -/

theorem foldl_add_nonneg (l : List Int) (h : ∀ x ∈ l, 0 ≤ x) (a : Int)
    (ha : 0 ≤ a) : 0 ≤ l.foldl (· + ·) a := by
  induction l generalizing a with
  | nil => exact ha
  | cons x l ih =>
    rw [List.foldl_cons]
    exact ih (fun y hy => h y (List.mem_cons_of_mem x hy)) _
      (add_nonneg ha (h x (List.mem_cons_self x l)))

theorem foldl_add_le_length (l : List Int) (h : ∀ x ∈ l, x ≤ 1) (a : Int) :
    l.foldl (· + ·) a ≤ a + l.length := by
  induction l generalizing a with
  | nil => simp
  | cons x l ih =>
    rw [List.foldl_cons]
    have h1 := ih (fun y hy => h y (List.mem_cons_of_mem x hy)) (a + x)
    have h2 := h x (List.mem_cons_self x l)
    rw [List.length_cons]
    push_cast at h1 ⊢
    omega

theorem countsPass1_bounds (cm : List (String × Bool)) :
    0 ≤ (countsPass1 cm).enabled ∧
      (countsPass1 cm).enabled ≤ (countsPass1 cm).total := by
  rw [countsPass1]
  constructor
  · refine foldl_add_nonneg _ ?_ 0 (le_refl 0)
    intro x hx
    obtain ⟨p, hp, rfl⟩ := List.mem_map.mp hx
    by_cases h : p.2 = true <;> simp [h]
  · have h1 := foldl_add_le_length
      (cm.map (fun p => if p.2 then (1 : Int) else 0)) ?_ 0
    · rw [List.length_map] at h1
      show (cm.map (fun p => if p.2 then (1 : Int) else 0)).foldl (· + ·) 0 ≤
        (cm.length : Int)
      omega
    · intro x hx
      obtain ⟨p, hp, rfl⟩ := List.mem_map.mp hx
      by_cases h : p.2 = true <;> simp [h]

theorem sumCounts_cons (x : Counts3) (l : List Counts3) :
    sumCounts (x :: l) = addCounts x (sumCounts l) := by
  rw [sumCounts, sumCounts, addCounts]
  simp [List.map_cons]

theorem foldl_addCounts (l : List Counts3) (x : Counts3) :
    l.foldl addCounts x = addCounts x (sumCounts l) := by
  induction l generalizing x with
  | nil =>
    show x = addCounts x (sumCounts [])
    simp [addCounts, sumCounts]
  | cons y l ih =>
    rw [List.foldl_cons, ih, sumCounts_cons]
    simp [addCounts]
    omega

theorem reduceHeadSeed_eq (l : List Counts3) (h : l ≠ []) :
    reduceHeadSeed l = some (sumCounts l) := by
  cases l with
  | nil => exact absurd rfl h
  | cons x xs =>
    rw [show reduceHeadSeed (x :: xs) = some (xs.foldl addCounts x) from rfl]
    rw [foldl_addCounts, sumCounts_cons]

theorem setK_append {α : Type} (l : List (String × α)) (k : String) (v : α)
    (h : k ∉ l.map Prod.fst) : setK l k v = l ++ [(k, v)] := by
  rw [setK, if_neg ?_]
  have hnone : l.find? (fun p => p.1 == k) = none := by
    rw [List.find?_eq_none]
    intro p hp hc
    exact h (List.mem_map.mpr ⟨p, hp, by simpa using hc⟩)
  rw [hnone]
  simp

theorem analyzerCountsBase_keys (gm : List (String × List (String × Bool))) :
    (analyzerCountsBase gm).map Prod.fst = gm.map Prod.fst := by
  rw [analyzerCountsBase, List.map_map]
  rfl

theorem analyzerCounts_eq (gm : List (String × List (String × Bool)))
    (hne : gm ≠ []) :
    analyzerCounts gm = setK (analyzerCountsBase gm) AnalyzerTotal
      (sumCounts ((analyzerCountsBase gm).map Prod.snd)) := by
  rw [analyzerCounts]
  have hbne : (analyzerCountsBase gm).map Prod.snd ≠ [] := by
    intro hc
    apply hne
    have hlen := congrArg List.length hc
    simp only [List.length_map, analyzerCountsBase, List.length_nil] at hlen
    exact List.length_eq_zero.mp hlen
  rw [reduceHeadSeed_eq _ hbne]

/-- The arithmetic shape every stored counts triple satisfies. -/
def CountsOK (t : Counts3) : Prop :=
  t.disabled = t.total - t.enabled ∧ 0 ≤ t.enabled ∧ 0 ≤ t.disabled ∧
    t.enabled ≤ t.total

theorem sumCounts_ok (l : List Counts3) (h : ∀ t ∈ l, CountsOK t) :
    CountsOK (sumCounts l) := by
  induction l with
  | nil =>
    refine ⟨?_, ?_, ?_, ?_⟩ <;> simp [sumCounts]
  | cons x l ih =>
    obtain ⟨h1, h2, h3, h4⟩ := h x (List.mem_cons_self x l)
    obtain ⟨g1, g2, g3, g4⟩ := ih (fun t ht => h t (List.mem_cons_of_mem x ht))
    rw [sumCounts_cons]
    refine ⟨?_, ?_, ?_, ?_⟩ <;> simp [addCounts] <;> omega

theorem analyzerCountsBase_ok (gm : List (String × List (String × Bool)))
    (g : String) (t : Counts3) (hmem : (g, t) ∈ analyzerCountsBase gm) :
    CountsOK t := by
  rw [analyzerCountsBase] at hmem
  obtain ⟨p, hp, heq⟩ := List.mem_map.mp hmem
  have ht : t = countsFix (countsPass1 p.2) := (Prod.mk.injEq _ _ _ _ ▸ heq).2.symm
  subst ht
  obtain ⟨hb1, hb2⟩ := countsPass1_bounds p.2
  refine ⟨rfl, hb1, ?_, ?_⟩
  · show 0 ≤ (countsPass1 p.2).total - (countsPass1 p.2).enabled
    omega
  · exact hb2

/-- C9: after `sortAndStoreCheckerInfo` processes a checker-status map, for
every analyzer with at least one group (as `reduceCheckerStatuses` always
produces) every stored counts triple satisfies disabled = total - enabled
with all three components non-negative, and the analyzer-total sentinel
entry (`"__S"`) is the component-wise sum of the per-group triples. -/
theorem claim_counts_coherent (checkerStatuses : CheckerStatuses) (a : String)
    (gm : List (String × List (String × Bool)))
    (hmem : (a, gm) ∈ checkerStatuses) (hne : gm ≠ [])
    (hkey : AnalyzerTotal ∉ gm.map Prod.fst) :
    (a, analyzerCounts gm) ∈ sortAndStoreCounts checkerStatuses
    ∧ (∀ g t, (g, t) ∈ analyzerCounts gm →
        t.disabled = t.total - t.enabled ∧ 0 ≤ t.enabled ∧ 0 ≤ t.disabled ∧
          t.enabled ≤ t.total)
    ∧ alookup (analyzerCounts gm) AnalyzerTotal =
        some (sumCounts ((analyzerCountsBase gm).map Prod.snd)) := by
  have hkeyb : AnalyzerTotal ∉ (analyzerCountsBase gm).map Prod.fst := by
    rw [analyzerCountsBase_keys]
    exact hkey
  have heq : analyzerCounts gm = analyzerCountsBase gm ++
      [(AnalyzerTotal, sumCounts ((analyzerCountsBase gm).map Prod.snd))] := by
    rw [analyzerCounts_eq gm hne, setK_append _ _ _ hkeyb]
  refine ⟨?_, ?_, ?_⟩
  · rw [sortAndStoreCounts]
    exact List.mem_map.mpr ⟨(a, gm), hmem, rfl⟩
  · intro g t hmem2
    rw [heq] at hmem2
    rcases List.mem_append.mp hmem2 with hbase | htot
    · exact analyzerCountsBase_ok gm g t hbase
    · rw [List.mem_singleton] at htot
      have ht : t = sumCounts ((analyzerCountsBase gm).map Prod.snd) :=
        (Prod.mk.injEq _ _ _ _ ▸ htot).2
      subst ht
      refine sumCounts_ok _ ?_
      intro t2 ht2
      obtain ⟨p2, hp2, heq2⟩ := List.mem_map.mp ht2
      have := analyzerCountsBase_ok gm p2.1 p2.2 (by
        rw [show (p2.1, p2.2) = p2 from rfl]
        exact hp2)
      rw [← heq2]
      exact this
  · rw [heq, alookup, List.find?_append]
    have hnone : (analyzerCountsBase gm).find? (fun p => p.1 == AnalyzerTotal) =
        none := by
      rw [List.find?_eq_none]
      intro p hp hc
      exact hkeyb (List.mem_map.mpr ⟨p, hp, by simpa using hc⟩)
    rw [hnone, Option.none_or, List.find?_cons_of_pos _ (by simp)]
    rfl

/-- Witness for C9 on a one-analyzer, one-group, two-checker map. -/
theorem claim_counts_coherent_witness :
    ("clangsa", analyzerCounts [("core", [("core.DivideZero", true),
        ("core.Swap", false)])]) ∈ sortAndStoreCounts demoStatuses
    ∧ (∀ g t, (g, t) ∈ analyzerCounts [("core", [("core.DivideZero", true),
          ("core.Swap", false)])] →
        t.disabled = t.total - t.enabled ∧ 0 ≤ t.enabled ∧ 0 ≤ t.disabled ∧
          t.enabled ≤ t.total)
    ∧ alookup (analyzerCounts [("core", [("core.DivideZero", true),
          ("core.Swap", false)])]) AnalyzerTotal =
        some (sumCounts ((analyzerCountsBase [("core",
          [("core.DivideZero", true), ("core.Swap", false)])]).map
            Prod.snd)) :=
  claim_counts_coherent demoStatuses "clangsa"
    [("core", [("core.DivideZero", true), ("core.Swap", false)])]
    (by decide) (by decide) (by decide)

end CodeCheckerDaemon
